import Mathlib

/-!
The YAR wire codec of goyar (`yar.go`).

A shallow embedding of `yar.go`: the 90-byte transport header, the header
reader, the `Packager` tag and the `Request`/`Response` writers.

Conventions of the embedding

* A byte is a `Nat` below `256`; a Go `string` or `[]byte` is a `List Nat`.
* `uint16`/`uint32` fields are `Nat`s; the range of each field is recorded in
  `Header.WF`, and every conversion that truncates in Go is an explicit `%`.
* `[32]byte` and `[8]byte` arrays are lists whose length is recorded in
  `Header.WF` (resp. stated as `p.length = 8`).
* `io.Reader` and `io.Writer` are explicit stream states; a Go `error` result
  is an `Option Err` (`none` is `nil`).
-/

namespace Goyar

/-! ## Errors and streams -/

/-- Go `error` values that reach the callers of this package. -/
inductive Err where
  /-- The error `io.EOF`. -/
  | EOF
  /-- The error `io.ErrUnexpectedEOF`. -/
  | ErrUnexpectedEOF
  /-- An error of `json.Marshal`. -/
  | marshal (code : Nat)
  /-- Any other fault of the underlying stream. -/
  | stream (code : Nat)
  deriving DecidableEq, Repr

/-- An `io.Reader`: the bytes it still yields, and how it ends once they are
used up (`none`: a clean end of stream, `io.EOF`; `some e`: the fault `e`). -/
structure Reader where
  data : List Nat
  fault : Option Err
  deriving DecidableEq, Repr

/-- Behaviour of one `Write` call of an `io.Writer`. -/
inductive WriteOutcome where
  /-- The call accepts every byte and returns a nil error. -/
  | ok
  /-- The call accepts only the first `n` bytes and returns the error `e`. -/
  | fail (n : Nat) (e : Err)
  deriving DecidableEq, Repr

/-- An `io.Writer`: the bytes it has received so far, the number of `Write`
calls made on it, and the outcomes of the calls to come (a call beyond the end
of `script` succeeds). -/
structure Writer where
  buf : List Nat
  calls : Nat
  script : List WriteOutcome
  deriving DecidableEq, Repr

/-- One call `w.Write(bs)`: the returned error and the writer afterwards. -/
def Writer.Write (w : Writer) (bs : List Nat) : Option Err × Writer :=
  match w.script with
  | [] => (none, { buf := w.buf ++ bs, calls := w.calls + 1, script := [] })
  | WriteOutcome.ok :: rest =>
      (none, { buf := w.buf ++ bs, calls := w.calls + 1, script := rest })
  | WriteOutcome.fail n e :: rest =>
      (some e, { buf := w.buf ++ bs.take n, calls := w.calls + 1, script := rest })

/-- A writer on which no `Write` call fails. -/
def Writer.faultFree (w : Writer) : Prop :=
  ∀ o ∈ w.script, o = WriteOutcome.ok

instance (w : Writer) : Decidable w.faultFree := by
  unfold Writer.faultFree; infer_instance

/-! ## `encoding/binary`, big endian -/

/-- Go `binary.BigEndian.PutUint16`: `b[0] = byte(v >> 8)`, `b[1] = byte(v)`. -/
def putUint16 (v : Nat) : List Nat :=
  [v / 2 ^ 8 % 256, v % 256]

/-- Go `binary.BigEndian.PutUint32`: `b[0] = byte(v >> 24)` down to `b[3] = byte(v)`. -/
def putUint32 (v : Nat) : List Nat :=
  [v / 2 ^ 24 % 256, v / 2 ^ 16 % 256, v / 2 ^ 8 % 256, v % 256]

/-- Go `binary.BigEndian.Uint16`: `uint16(b[1]) | uint16(b[0])<<8`. -/
def getUint16 (b : List Nat) : Nat :=
  b.getD 1 0 + b.getD 0 0 * 2 ^ 8

/-- Go `binary.BigEndian.Uint32`:
`uint32(b[3]) | uint32(b[2])<<8 | uint32(b[1])<<16 | uint32(b[0])<<24`. -/
def getUint32 (b : List Nat) : Nat :=
  b.getD 3 0 + b.getD 2 0 * 2 ^ 8 + b.getD 1 0 * 2 ^ 16 + b.getD 0 0 * 2 ^ 24

/-! ## Header -/

/-- Go `type Packager [8]byte`. -/
abbrev Packager := List Nat

/-- Go `type Header struct`: the Yar transport header. -/
structure Header where
  ID : Nat
  Version : Nat
  MagicNum : Nat
  Reserved : Nat
  Provider : List Nat
  Token : List Nat
  BodyLen : Nat
  PkgName : Packager
  deriving DecidableEq, Repr

/-- A list is a Go `[n]byte`. -/
def isBytes (n : Nat) (l : List Nat) : Prop :=
  l.length = n ∧ ∀ b ∈ l, b < 256

instance (n : Nat) (l : List Nat) : Decidable (isBytes n l) := by
  unfold isBytes; infer_instance

/-- The value ranges that the Go field types of `Header` impose. -/
def Header.WF (h : Header) : Prop :=
  h.ID < 2 ^ 32 ∧ h.Version < 2 ^ 16 ∧ h.MagicNum < 2 ^ 32 ∧ h.Reserved < 2 ^ 32 ∧
  isBytes 32 h.Provider ∧ isBytes 32 h.Token ∧ h.BodyLen < 2 ^ 32 ∧ isBytes 8 h.PkgName

instance (h : Header) : Decidable h.WF := by
  unfold Header.WF; infer_instance

/-- The zero value `Header{}` of Go. -/
def Header.zero : Header :=
  { ID := 0, Version := 0, MagicNum := 0, Reserved := 0,
    Provider := List.replicate 32 0, Token := List.replicate 32 0,
    BodyLen := 0, PkgName := List.replicate 8 0 }

/-- A header with every field set, for the concrete checks. -/
def exampleHeader : Header :=
  { ID := 0xDEADBEEF, Version := 0x0102, MagicNum := 0x80DFEC60, Reserved := 7,
    Provider := List.replicate 32 0xAB, Token := List.replicate 32 0xFF,
    BodyLen := 26, PkgName := [74, 83, 79, 78, 0, 0, 0, 0] }

/-- The size `binary.Size(Header{})` of the encoded header. -/
def headerSize : Nat := 90

/-- The bytes `binary.Write(w, binary.BigEndian, yh)` hands to `w.Write`: the
fields in declaration order, each in its fixed-size big-endian form. -/
def Header.encode (h : Header) : List Nat :=
  putUint32 h.ID ++ putUint16 h.Version ++ putUint32 h.MagicNum ++
  putUint32 h.Reserved ++ h.Provider ++ h.Token ++ putUint32 h.BodyLen ++ h.PkgName

/-- The decoding step of `binary.Read(r, binary.BigEndian, &yh)` on the 90
bytes read: the fields in declaration order. -/
def Header.decode (bs : List Nat) : Header :=
  { ID := getUint32 (bs.take 4),
    Version := getUint16 ((bs.drop 4).take 2),
    MagicNum := getUint32 ((bs.drop 6).take 4),
    Reserved := getUint32 ((bs.drop 10).take 4),
    Provider := (bs.drop 14).take 32,
    Token := (bs.drop 46).take 32,
    BodyLen := getUint32 ((bs.drop 78).take 4),
    PkgName := (bs.drop 82).take 8 }

/-- Go `io.ReadFull(r, buf)` with `len(buf) = n`: the bytes read, the error, and
the reader afterwards.  Once its data is used up the reader returns its fault,
or `io.EOF` when it has none; `io.ReadFull` hands that error on, except that an
`io.EOF` after some but fewer than `n` bytes becomes `io.ErrUnexpectedEOF`. -/
def Reader.ReadFull (r : Reader) (n : Nat) : List Nat × Option Err × Reader :=
  if n ≤ r.data.length then
    (r.data.take n, none, { data := r.data.drop n, fault := r.fault })
  else
    let err := match r.fault with
      | some e => e
      | none => Err.EOF
    (r.data, some (if 0 < r.data.length ∧ err = Err.EOF then Err.ErrUnexpectedEOF else err),
      { data := [], fault := r.fault })

/-- Go `func ReadHeader(r io.Reader) (*Header, error)`, with the reader afterwards. -/
def ReadHeader (r : Reader) : Except Err Header × Reader :=
  match r.ReadFull headerSize with
  | (_, some err, r1) => (Except.error err, r1)
  | (bs, none, r1) => (Except.ok (Header.decode bs), r1)

/-! ## Packager -/

/-- The loop of `Packager.Equal`, started at index `i`:
`for ; i < 8 && i < len(str); i++ { if (*p)[i] != str[i] { return false } }; return true`.
The loop runs at most `8 - i` times; `fuel` bounds the number of iterations, and
`Packager.equalLoop_iff` shows that fuel `8 - i` is enough. -/
def Packager.equalLoop (p : Packager) (str : List Nat) : Nat → Nat → Bool
  | 0, _ => true
  | fuel + 1, i =>
      if i < 8 ∧ i < str.length then
        if p.getD i 0 ≠ str.getD i 0 then false else Packager.equalLoop p str fuel (i + 1)
      else true

/-- Go `func (p *Packager) Equal(str string) bool`. -/
def Packager.Equal (p : Packager) (str : List Nat) : Bool :=
  Packager.equalLoop p str 8 0

/-- The first loop of `Packager.Set`, started at index `i`:
`for ; i < 8 && i < len(str); i++ { (*p)[i] = str[i] }`; it returns the final
index together with the array.  The loop runs at most `8 - i` times, which
`fuel` bounds (`Packager.setCopy_spec`). -/
def Packager.setCopy (str : List Nat) : Nat → Nat → Packager → Nat × Packager
  | 0, i, p => (i, p)
  | fuel + 1, i, p =>
      if i < 8 ∧ i < str.length then
        Packager.setCopy str fuel (i + 1) (p.set i (str.getD i 0))
      else (i, p)

/-- The second loop of `Packager.Set`: `for ; i < 8; i++ { (*p)[i] = 0 }`, with
`fuel` bounding its at most `8 - i` iterations (`Packager.setFill_spec`). -/
def Packager.setFill : Nat → Nat → Packager → Packager
  | 0, _, p => p
  | fuel + 1, i, p =>
      if i < 8 then Packager.setFill fuel (i + 1) (p.set i 0) else p

/-- Go `func (p *Packager) Set(str string)`: the array after the call. -/
def Packager.Set (p : Packager) (str : List Nat) : Packager :=
  let r := Packager.setCopy str 8 0 p
  Packager.setFill 8 r.1 r.2

/-! ## Strings and JSON text -/

/-- UTF-8 encoding of the code point `c`. -/
def utf8EncodeChar (c : Nat) : List Nat :=
  if c < 0x80 then [c]
  else if c < 0x800 then [0xC0 + c / 64, 0x80 + c % 64]
  else if c < 0x10000 then [0xE0 + c / 4096, 0x80 + c / 64 % 64, 0x80 + c % 64]
  else [0xF0 + c / 262144, 0x80 + c / 4096 % 64, 0x80 + c / 64 % 64, 0x80 + c % 64]

/-- The bytes of a Go string literal (UTF-8). -/
def bytesOf (s : String) : List Nat :=
  s.toList.foldr (fun c acc => utf8EncodeChar c.toNat ++ acc) []

/-- Lower-case hexadecimal digit, as `"0123456789abcdef"[n]`. -/
def hexDigit (n : Nat) : Nat :=
  if n < 10 then 48 + n else 87 + n

/-- Decimal text of a natural number, as `strconv.AppendUint(_, n, 10)`. -/
def decimal (n : Nat) : List Nat :=
  (Nat.toDigits 10 n).map Char.toNat

/-- Decimal text of an integer, as `strconv.AppendInt(_, n, 10)`. -/
def decimalInt (n : Int) : List Nat :=
  if n < 0 then 45 :: decimal n.natAbs else decimal n.natAbs

/-- Modelled from the spec: `encoding/json` is no part of `yar.go`; this is the
text `json.Marshal` gives one character of a string that holds valid UTF-8
(HTML escaping on, as `json.Marshal` has it): the quote and the backslash take
a backslash, `\b \f \n \r \t` their short form, the other control characters
and `<`, `>`, `&` the form `\u00XX`, U+2028 and U+2029 the form `\u202X`, and
every other character its UTF-8 bytes. -/
def jsonChar (c : Nat) : List Nat :=
  if c = 34 ∨ c = 92 then [92, c]
  else if c = 8 then [92, 98]
  else if c = 12 then [92, 102]
  else if c = 10 then [92, 110]
  else if c = 13 then [92, 114]
  else if c = 9 then [92, 116]
  else if c < 32 ∨ c = 60 ∨ c = 62 ∨ c = 38 then
    [92, 117, 48, 48, hexDigit (c / 16), hexDigit (c % 16)]
  else if c = 0x2028 ∨ c = 0x2029 then
    [92, 117, 50, 48, 50, hexDigit (c % 16)]
  else utf8EncodeChar c

/-- Modelled from the spec: the JSON text of a string, between double quotes. -/
def jsonString (s : String) : List Nat :=
  34 :: s.toList.foldr (fun c acc => jsonChar c.toNat ++ acc) [34]

/-- A dynamically typed Go value (`interface{}`) as the `Params` and `Result`
fields hold it: nil, a boolean, an integer, a string, a slice of such values,
or a value `encoding/json` has no text for (a channel, a function).  Floating
point numbers and maps are left out. -/
inductive Value where
  | null
  | bool (b : Bool)
  | int (n : Int)
  | str (s : String)
  | arr (xs : List Value)
  | unsupported
  deriving Repr

mutual
/-- Modelled from the spec: the text `json.Marshal` gives a `Value`
(`encoding/json` is no part of `yar.go`); `UnsupportedTypeError` is
`Err.marshal 0`. -/
def Value.marshal : Value → Except Err (List Nat)
  | Value.null => Except.ok (bytesOf "null")
  | Value.bool b => Except.ok (if b then bytesOf "true" else bytesOf "false")
  | Value.int n => Except.ok (decimalInt n)
  | Value.str s => Except.ok (jsonString s)
  | Value.arr xs =>
      match Value.marshalElems xs with
      | Except.ok bs => Except.ok (91 :: bs ++ [93])
      | Except.error e => Except.error e
  | Value.unsupported => Except.error (Err.marshal 0)
/-- Modelled from the spec: the elements of a slice, separated by commas. -/
def Value.marshalElems : List Value → Except Err (List Nat)
  | [] => Except.ok []
  | [x] => Value.marshal x
  | x :: y :: xs =>
      match Value.marshal x with
      | Except.error e => Except.error e
      | Except.ok a =>
          match Value.marshalElems (y :: xs) with
          | Except.error e => Except.error e
          | Except.ok b => Except.ok (a ++ 44 :: b)
end

/-! ## Request and Response -/

/-- Go `type Request struct`; `Params` is `none` for a nil slice. -/
structure Request where
  ID : Nat
  Method : String
  Params : Option (List Value)

/-- Go `type Response struct`. -/
structure Response where
  ID : Nat
  Status : Int
  Result : Value
  Output : String
  Error : String

/-- Modelled from the spec: `json.Marshal(*r)` for a `Request`, the object
with the keys `i`, `m`, `p` in this order and no white space. -/
def Request.Marshal (r : Request) : Except Err (List Nat) :=
  let p := match r.Params with
    | none => Except.ok (bytesOf "null")
    | some xs => Value.marshal (Value.arr xs)
  match p with
  | Except.error e => Except.error e
  | Except.ok ps =>
      Except.ok (bytesOf "\x7b\"i\":" ++ decimal r.ID ++ bytesOf ",\"m\":" ++ jsonString r.Method ++
        bytesOf ",\"p\":" ++ ps ++ bytesOf "\x7d")

/-- Modelled from the spec: `json.Marshal(*r)` for a `Response`, the object
with the keys `i`, `s`, `r`, `o`, `e` in this order and no white space. -/
def Response.Marshal (r : Response) : Except Err (List Nat) :=
  match Value.marshal r.Result with
  | Except.error e => Except.error e
  | Except.ok rs =>
      Except.ok (bytesOf "\x7b\"i\":" ++ decimal r.ID ++ bytesOf ",\"s\":" ++ decimalInt r.Status ++
        bytesOf ",\"r\":" ++ rs ++ bytesOf ",\"o\":" ++ jsonString r.Output ++
        bytesOf ",\"e\":" ++ jsonString r.Error ++ bytesOf "\x7d")

/-- Go `binary.Write(w, binary.BigEndian, yh)` for a `Header`: one `Write` call
with the 90 encoded bytes. -/
def binaryWrite (w : Writer) (yh : Header) : Option Err × Writer :=
  w.Write yh.encode

/-- Go `func (r *Request) Write(w io.Writer) error`, with the writer afterwards.
`marshal` is `json.Marshal` on a `Request`. -/
def Request.Write (marshal : Request → Except Err (List Nat)) (r : Request) (w : Writer) :
    Option Err × Writer :=
  match marshal r with
  | Except.error jerr => (some jerr, w)
  | Except.ok jbyte =>
      let yh : Header :=
        { Header.zero with
          ID := r.ID, Version := 0, MagicNum := 0x80DFEC60, Reserved := 0,
          BodyLen := (jbyte.length + 8) % 2 ^ 32 }
      let yh : Header := { yh with PkgName := Packager.Set yh.PkgName (bytesOf "JSON") }
      match binaryWrite w yh with
      | (some err, w1) => (some err, w1)
      | (none, w1) =>
          match w1.Write jbyte with
          | (some err, w2) => (some err, w2)
          | (none, w2) => (none, w2)

/-- Go `func (r *Response) Write(w io.Writer) error`, with the writer afterwards.
`marshal` is `json.Marshal` on a `Response`. -/
def Response.Write (marshal : Response → Except Err (List Nat)) (r : Response) (w : Writer) :
    Option Err × Writer :=
  match marshal r with
  | Except.error _ => (none, w)
  | Except.ok jbyte =>
      let yh : Header :=
        { Header.zero with
          ID := r.ID, Version := 0, MagicNum := 0x80DFEC60, Reserved := 0,
          BodyLen := (jbyte.length + 8) % 2 ^ 32 }
      let yh : Header := { yh with PkgName := Packager.Set yh.PkgName (bytesOf "JSON") }
      match binaryWrite w yh with
      | (some err, w1) => (some err, w1)
      | (none, w1) =>
          match w1.Write jbyte with
          | (some err, w2) => (some err, w2)
          | (none, w2) => (none, w2)

/-- The next `Write` call on the writer returns a nil error. -/
def Writer.nextOk (w : Writer) : Prop :=
  match w.script with
  | WriteOutcome.fail _ _ :: _ => False
  | _ => True

instance (w : Writer) : Decidable w.nextOk := by
  unfold Writer.nextOk; split <;> infer_instance

/-- The bytes the writer `w1` has received since it was in the state `w`. -/
def Writer.appended (w w1 : Writer) : List Nat :=
  w1.buf.drop w.buf.length

/-- The result of `ReadHeader` on a stream that holds the bytes the writer `w1`
has received since it was in the state `w`. -/
def readBack (w w1 : Writer) : Except Err Header :=
  (ReadHeader { data := w.appended w1, fault := none }).1

/-- A writer that has received nothing and never fails. -/
def emptyWriter : Writer :=
  { buf := [], calls := 0, script := [] }

/-- The range of the `uint32` field of a `Request`. -/
def Request.WF (r : Request) : Prop :=
  r.ID < 2 ^ 32

instance (r : Request) : Decidable r.WF := by
  unfold Request.WF; infer_instance

/-- The ranges of the `uint32` and `int32` fields of a `Response`. -/
def Response.WF (r : Response) : Prop :=
  r.ID < 2 ^ 32 ∧ -2 ^ 31 ≤ r.Status ∧ r.Status < 2 ^ 31

instance (r : Response) : Decidable r.WF := by
  unfold Response.WF; infer_instance

/-- The value of `yh` that `Request.Write` and `Response.Write` hand to
`binary.Write`, for the id `id` and the JSON bytes `jbyte`, written out field by
field (`yar.go` lines 58-65 and 94-101). -/
def messageHeader (id : Nat) (jbyte : List Nat) : Header :=
  { ID := id, Version := 0, MagicNum := 0x80DFEC60, Reserved := 0,
    Provider := List.replicate 32 0, Token := List.replicate 32 0,
    BodyLen := (jbyte.length + 8) % 2 ^ 32,
    PkgName := [74, 83, 79, 78, 0, 0, 0, 0] }

/-- The request of the end-to-end scenario:
`Request{ID: 1, Method: "add", Params: []interface{}{1, 2}}`. -/
def addRequest : Request :=
  { ID := 1, Method := "add", Params := some [Value.int 1, Value.int 2] }

/-- The JSON text the end-to-end scenario names for `addRequest`. -/
def addJSON : List Nat :=
  bytesOf "\x7b\"i\":1,\"m\":\"add\",\"p\":[1,2]\x7d"

/-- The response of the error-path scenario:
`Response{ID: 7, Status: -1, Error: "not found"}`. -/
def notFoundResponse : Response :=
  { ID := 7, Status := -1, Result := Value.null, Output := "", Error := "not found" }

/-- A request whose method name is `n` letters `a`. -/
def longRequest (n : Nat) : Request :=
  { ID := 1, Method := String.mk (List.replicate n 'a'), Params := none }

/-- The JSON text of `longRequest n`: the object with `n` letters `a` as the
method name. -/
def longJSON (n : Nat) : List Nat :=
  bytesOf "\x7b\"i\":1,\"m\":\"" ++ List.replicate n 97 ++ bytesOf "\",\"p\":null\x7d"

/-- A request with a parameter `encoding/json` has no text for:
`Request{ID: 1, Method: "add", Params: []interface{}{make(chan int)}}`. -/
def chanRequest : Request :=
  { ID := 1, Method := "add", Params := some [Value.unsupported] }

/-- A response with a result `encoding/json` has no text for:
`Response{ID: 1, Result: make(chan int)}`. -/
def chanResponse : Response :=
  { ID := 1, Status := 0, Result := Value.unsupported, Output := "", Error := "" }

/-- The JSON text of `notFoundResponse`. -/
def notFoundJSON : List Nat :=
  bytesOf "\x7b\"i\":7,\"s\":-1,\"r\":null,\"o\":\"\",\"e\":\"not found\"\x7d"

/-- A fresh writer whose first `Write` call succeeds and whose second call
accepts `n` bytes and fails with `e`. -/
def bodyFailWriter (n : Nat) (e : Err) : Writer :=
  { buf := [], calls := 0, script := [WriteOutcome.ok, WriteOutcome.fail n e] }

/-- A fresh writer whose first `Write` call accepts `n` bytes and fails with `e`. -/
def headerFailWriter (n : Nat) (e : Err) : Writer :=
  { buf := [], calls := 0, script := [WriteOutcome.fail n e] }

/-! ## Big-endian integers -/

theorem putUint32_length (v : Nat) : (putUint32 v).length = 4 := rfl

theorem putUint16_length (v : Nat) : (putUint16 v).length = 2 := rfl

theorem getUint32_putUint32 (v : Nat) (hv : v < 2 ^ 32) : getUint32 (putUint32 v) = v := by
  simp only [getUint32, putUint32, List.getD_cons_zero, List.getD_cons_succ]
  norm_num at hv ⊢
  omega

theorem getUint16_putUint16 (v : Nat) (hv : v < 2 ^ 16) : getUint16 (putUint16 v) = v := by
  simp only [getUint16, putUint16, List.getD_cons_zero, List.getD_cons_succ]
  norm_num at hv ⊢
  omega

/-! ## Header layout and round trip -/

theorem drop_append_of_length {l1 : List Nat} {k : Nat} (hk : l1.length = k) (n : Nat)
    (l2 : List Nat) : (l1 ++ l2).drop (k + n) = l2.drop n := by
  subst hk
  induction l1 with
  | nil => simp
  | cons a t ih =>
      have : (a :: t).length + n = (t.length + n) + 1 := by simp; omega
      rw [this, List.cons_append, List.drop_succ_cons, ih]

theorem Header.encode_length (h : Header) (hwf : h.WF) : h.encode.length = 90 := by
  obtain ⟨_, _, _, _, ⟨hp, _⟩, ⟨ht, _⟩, _, ⟨hn, _⟩⟩ := hwf
  simp [Header.encode, putUint32_length, putUint16_length, hp, ht, hn]

/-- The tails of the encoding at the offsets where the fields start. -/
theorem Header.encode_drop (h : Header) (hp : h.Provider.length = 32)
    (ht : h.Token.length = 32) :
    h.encode.drop 4 = putUint16 h.Version ++ (putUint32 h.MagicNum ++ (putUint32 h.Reserved ++
        (h.Provider ++ (h.Token ++ (putUint32 h.BodyLen ++ h.PkgName))))) ∧
    h.encode.drop 6 = putUint32 h.MagicNum ++ (putUint32 h.Reserved ++
        (h.Provider ++ (h.Token ++ (putUint32 h.BodyLen ++ h.PkgName)))) ∧
    h.encode.drop 10 = putUint32 h.Reserved ++
        (h.Provider ++ (h.Token ++ (putUint32 h.BodyLen ++ h.PkgName))) ∧
    h.encode.drop 14 = h.Provider ++ (h.Token ++ (putUint32 h.BodyLen ++ h.PkgName)) ∧
    h.encode.drop 46 = h.Token ++ (putUint32 h.BodyLen ++ h.PkgName) ∧
    h.encode.drop 78 = putUint32 h.BodyLen ++ h.PkgName ∧
    h.encode.drop 82 = h.PkgName := by
  obtain ⟨id, ver, mg, rs, pr, tk, bl, pk⟩ := h
  simp only at hp ht
  simp only [Header.encode, List.append_assoc]
  have d4 : ∀ l : List Nat, (putUint32 id ++ l).drop 4 = l :=
    fun l => List.drop_left' (putUint32_length id)
  have d6 : ∀ l : List Nat, (putUint32 id ++ (putUint16 ver ++ l)).drop 6 = l := fun l => by
    rw [show (6 : Nat) = 4 + 2 from rfl, ← List.drop_drop, d4]
    exact List.drop_left' (putUint16_length ver)
  have d10 : ∀ l : List Nat,
      (putUint32 id ++ (putUint16 ver ++ (putUint32 mg ++ l))).drop 10 = l := fun l => by
    rw [show (10 : Nat) = 6 + 4 from rfl, ← List.drop_drop, d6]
    exact List.drop_left' (putUint32_length mg)
  have d14 : ∀ l : List Nat,
      (putUint32 id ++ (putUint16 ver ++ (putUint32 mg ++ (putUint32 rs ++ l)))).drop 14 = l :=
    fun l => by
      rw [show (14 : Nat) = 10 + 4 from rfl, ← List.drop_drop, d10]
      exact List.drop_left' (putUint32_length rs)
  have d46 : ∀ l : List Nat,
      (putUint32 id ++ (putUint16 ver ++ (putUint32 mg ++ (putUint32 rs ++ (pr ++ l))))).drop 46
        = l := fun l => by
      rw [show (46 : Nat) = 14 + 32 from rfl, ← List.drop_drop, d14]
      exact List.drop_left' hp
  have d78 : ∀ l : List Nat,
      (putUint32 id ++ (putUint16 ver ++ (putUint32 mg ++ (putUint32 rs ++
        (pr ++ (tk ++ l)))))).drop 78 = l := fun l => by
      rw [show (78 : Nat) = 46 + 32 from rfl, ← List.drop_drop, d46]
      exact List.drop_left' ht
  have d82 : ∀ l : List Nat,
      (putUint32 id ++ (putUint16 ver ++ (putUint32 mg ++ (putUint32 rs ++
        (pr ++ (tk ++ (putUint32 bl ++ l))))))).drop 82 = l := fun l => by
      rw [show (82 : Nat) = 78 + 4 from rfl, ← List.drop_drop, d78]
      exact List.drop_left' (putUint32_length bl)
  exact ⟨d4 _, d6 _, d10 _, d14 _, d46 _, d78 _, d82 _⟩

theorem Header.decode_encode (h : Header) (hwf : h.WF) : Header.decode h.encode = h := by
  obtain ⟨h1, h2, h3, h4, ⟨hp, _⟩, ⟨ht, _⟩, h7, ⟨hn, _⟩⟩ := hwf
  obtain ⟨d4, d6, d10, d14, d46, d78, d82⟩ := Header.encode_drop h hp ht
  have d0 : h.encode = putUint32 h.ID ++ (putUint16 h.Version ++ (putUint32 h.MagicNum ++
      (putUint32 h.Reserved ++ (h.Provider ++ (h.Token ++
        (putUint32 h.BodyLen ++ h.PkgName)))))) := by
    simp only [Header.encode, List.append_assoc]
  simp only [Header.decode, d4, d6, d10, d14, d46, d78, d82]
  rw [d0]
  simp only [List.take_left' (putUint32_length _), List.take_left' (putUint16_length _),
    List.take_left' hp, List.take_left' ht,
    getUint32_putUint32 _ h1, getUint16_putUint16 _ h2, getUint32_putUint32 _ h3,
    getUint32_putUint32 _ h4, getUint32_putUint32 _ h7]
  rw [List.take_of_length_le (le_of_eq hn)]

theorem Header.encode_byte (h : Header) (hwf : h.WF) : ∀ b ∈ h.encode, b < 256 := by
  obtain ⟨_, _, _, _, ⟨_, hp⟩, ⟨_, ht⟩, _, ⟨_, hn⟩⟩ := hwf
  intro b hb
  simp only [Header.encode, putUint32, putUint16, List.mem_append, List.mem_cons,
    List.mem_singleton, List.not_mem_nil, or_false] at hb
  rcases hb with ((((((hb | hb) | hb) | hb) | hb) | hb) | hb) | hb
  · rcases hb with hb | hb | hb | hb <;> omega
  · rcases hb with hb | hb <;> omega
  · rcases hb with hb | hb | hb | hb <;> omega
  · rcases hb with hb | hb | hb | hb <;> omega
  · exact hp b hb
  · exact ht b hb
  · rcases hb with hb | hb | hb | hb <;> omega
  · exact hn b hb

theorem getD_drop (l : List Nat) (k i : Nat) : (l.drop k).getD i 0 = l.getD (k + i) 0 := by
  simp [List.getD_eq_getElem?_getD, List.getElem?_drop]

/-- Reading a header from a stream that starts with an encoded header. -/
theorem ReadHeader_encode_append (h : Header) (hwf : h.WF) (rest : List Nat) (f : Option Err) :
    ReadHeader { data := h.encode ++ rest, fault := f }
      = (Except.ok h, { data := rest, fault := f }) := by
  have hl := Header.encode_length h hwf
  simp [ReadHeader, Reader.ReadFull, headerSize, hl, List.take_left' hl, List.drop_left' hl,
    Header.decode_encode h hwf]

/-! ## Claims on the header -/

/-- C1: Header round trip. For every header whose fields are in the range of
their Go types, `ReadHeader` on a stream holding exactly the big-endian
encoding of the header succeeds and returns the same header, field by field. -/
theorem header_round_trip (h : Header) (hwf : h.WF) (f : Option Err) :
    (ReadHeader { data := h.encode, fault := f }).1 = Except.ok h := by
  have := ReadHeader_encode_append h hwf [] f
  rw [List.append_nil] at this
  rw [this]

/-- Witness of C1 at a header with every field set. -/
theorem header_round_trip_witness :
    exampleHeader.WF ∧
    (ReadHeader { data := exampleHeader.encode, fault := none }).1 = Except.ok exampleHeader :=
  ⟨by decide, header_round_trip exampleHeader (by decide) none⟩

/-- C2: Header wire layout. The encoding of a header is 90 bytes, each below
256, and holds ID at offsets 0-3, Version at 4-5, MagicNum at 6-9, Reserved at
10-13 (each big endian, most significant byte first), the 32 Provider bytes
from offset 14, the 32 Token bytes from offset 46, BodyLen at 78-81 (big
endian) and the 8 PkgName bytes from offset 82, with nothing in between. -/
theorem header_wire_layout (h : Header) (hwf : h.WF) :
    h.encode.length = 90 ∧
    (∀ b ∈ h.encode, b < 256) ∧
    h.ID = h.encode.getD 0 0 * 2 ^ 24 + h.encode.getD 1 0 * 2 ^ 16
            + h.encode.getD 2 0 * 2 ^ 8 + h.encode.getD 3 0 ∧
    h.Version = h.encode.getD 4 0 * 2 ^ 8 + h.encode.getD 5 0 ∧
    h.MagicNum = h.encode.getD 6 0 * 2 ^ 24 + h.encode.getD 7 0 * 2 ^ 16
            + h.encode.getD 8 0 * 2 ^ 8 + h.encode.getD 9 0 ∧
    h.Reserved = h.encode.getD 10 0 * 2 ^ 24 + h.encode.getD 11 0 * 2 ^ 16
            + h.encode.getD 12 0 * 2 ^ 8 + h.encode.getD 13 0 ∧
    (∀ i, i < 32 → h.encode.getD (14 + i) 0 = h.Provider.getD i 0) ∧
    (∀ i, i < 32 → h.encode.getD (46 + i) 0 = h.Token.getD i 0) ∧
    h.BodyLen = h.encode.getD 78 0 * 2 ^ 24 + h.encode.getD 79 0 * 2 ^ 16
            + h.encode.getD 80 0 * 2 ^ 8 + h.encode.getD 81 0 ∧
    (∀ i, i < 8 → h.encode.getD (82 + i) 0 = h.PkgName.getD i 0) ∧
    h.encode = putUint32 h.ID ++ putUint16 h.Version ++ putUint32 h.MagicNum ++
      putUint32 h.Reserved ++ h.Provider ++ h.Token ++ putUint32 h.BodyLen ++ h.PkgName := by
  have hwf0 := hwf
  obtain ⟨h1, h2, h3, h4, ⟨hp, _⟩, ⟨ht, _⟩, h7, ⟨hn, _⟩⟩ := hwf
  obtain ⟨d4, d6, d10, d14, d46, d78, d82⟩ := Header.encode_drop h hp ht
  have d0 : h.encode = putUint32 h.ID ++ (putUint16 h.Version ++ (putUint32 h.MagicNum ++
      (putUint32 h.Reserved ++ (h.Provider ++ (h.Token ++
        (putUint32 h.BodyLen ++ h.PkgName)))))) := by
    simp only [Header.encode, List.append_assoc]
  have g : ∀ k j, h.encode.getD (k + j) 0 = (h.encode.drop k).getD j 0 :=
    fun k j => (getD_drop _ k j).symm
  refine ⟨Header.encode_length h hwf0, Header.encode_byte h hwf0, ?_, ?_, ?_, ?_, ?_, ?_, ?_,
    ?_, rfl⟩
  · rw [d0]
    simp only [putUint32, List.cons_append, List.getD_cons_zero, List.getD_cons_succ]
    norm_num at h1 ⊢
    omega
  · rw [g 4 0, g 4 1, d4]
    simp only [putUint16, List.cons_append, List.getD_cons_zero, List.getD_cons_succ]
    norm_num at h2 ⊢
    omega
  · rw [g 6 0, g 6 1, g 6 2, g 6 3, d6]
    simp only [putUint32, List.cons_append, List.getD_cons_zero, List.getD_cons_succ]
    norm_num at h3 ⊢
    omega
  · rw [g 10 0, g 10 1, g 10 2, g 10 3, d10]
    simp only [putUint32, List.cons_append, List.getD_cons_zero, List.getD_cons_succ]
    norm_num at h4 ⊢
    omega
  · intro i hi
    rw [g 14 i, d14, List.getD_append _ _ _ _ (by omega)]
  · intro i hi
    rw [g 46 i, d46, List.getD_append _ _ _ _ (by omega)]
  · rw [g 78 0, g 78 1, g 78 2, g 78 3, d78]
    simp only [putUint32, List.cons_append, List.getD_cons_zero, List.getD_cons_succ]
    norm_num at h7 ⊢
    omega
  · intro i _
    rw [g 82 i, d82]

/-- Witness of C2 at a header with every field set. -/
theorem header_wire_layout_witness :
    exampleHeader.WF ∧ exampleHeader.encode.length = 90 :=
  ⟨by decide, (header_wire_layout exampleHeader (by decide)).1⟩

/-! ## Packager loops -/

/-- The comparison loop, with fuel for all remaining indices, returns true
exactly when no index from `i` on, below `8` and `len(str)`, differs. -/
theorem Packager.equalLoop_iff (p : Packager) (str : List Nat) :
    ∀ fuel i, 8 ≤ fuel + i →
      (Packager.equalLoop p str fuel i = true ↔
        ∀ j, i ≤ j → j < 8 → j < str.length → p.getD j 0 = str.getD j 0) := by
  intro fuel
  induction fuel with
  | zero =>
      intro i hi
      simp only [Packager.equalLoop, true_iff]
      intro j h1 h2 _
      omega
  | succ n ih =>
      intro i hi
      unfold Packager.equalLoop
      by_cases hc : i < 8 ∧ i < str.length
      · rw [if_pos hc]
        by_cases hne : p.getD i 0 ≠ str.getD i 0
        · rw [if_pos hne]
          constructor
          · intro h; cases h
          · intro h; exact absurd (h i (le_refl i) hc.1 hc.2) hne
        · rw [if_neg hne, ih (i + 1) (by omega)]
          have heq : p.getD i 0 = str.getD i 0 := not_not.mp hne
          constructor
          · intro h j h1 h2 h3
            rcases Nat.eq_or_lt_of_le h1 with h4 | h4
            · subst h4; exact heq
            · exact h j h4 h2 h3
          · intro h j h1 h2 h3
            exact h j (by omega) h2 h3
      · rw [if_neg hc]
        simp only [true_iff]
        intro j h1 h2 h3
        exact absurd ⟨by omega, by omega⟩ hc

/-- The copy loop of `Set`, with fuel for all remaining indices. -/
theorem Packager.setCopy_spec (str : List Nat) :
    ∀ fuel i (p : Packager), 8 ≤ fuel + i → p.length = 8 →
      (Packager.setCopy str fuel i p).1 = max i (min 8 str.length) ∧
      (Packager.setCopy str fuel i p).2.length = 8 ∧
      ∀ j, (Packager.setCopy str fuel i p).2[j]? =
        if i ≤ j ∧ j < 8 ∧ j < str.length then str[j]? else p[j]? := by
  intro fuel
  induction fuel with
  | zero =>
      intro i p hi hp
      simp only [Packager.setCopy]
      refine ⟨by omega, hp, ?_⟩
      intro j
      rw [if_neg (by omega)]
  | succ n ih =>
      intro i p hi hp
      unfold Packager.setCopy
      by_cases hc : i < 8 ∧ i < str.length
      · rw [if_pos hc]
        obtain ⟨h1, h2, h3⟩ := ih (i + 1) (p.set i (str.getD i 0)) (by omega)
          (by rw [List.length_set]; exact hp)
        refine ⟨by rw [h1]; omega, h2, ?_⟩
        intro j
        rw [h3 j]
        by_cases hj : i + 1 ≤ j ∧ j < 8 ∧ j < str.length
        · rw [if_pos hj, if_pos ⟨by omega, hj.2.1, hj.2.2⟩]
        · rw [if_neg hj]
          by_cases hij : i = j
          · subst hij
            rw [if_pos ⟨le_refl i, hc.1, hc.2⟩, List.getElem?_set, if_pos rfl,
              if_pos (by omega), List.getD_eq_getElem?_getD, List.getElem?_eq_getElem hc.2]
            rfl
          · rw [List.getElem?_set_ne hij, if_neg (by omega)]
      · rw [if_neg hc]
        refine ⟨by simp only; omega, hp, ?_⟩
        intro j
        rw [if_neg (by omega)]

/-- The zero-fill loop of `Set`, with fuel for all remaining indices. -/
theorem Packager.setFill_spec :
    ∀ fuel i (p : Packager), 8 ≤ fuel + i → p.length = 8 →
      (Packager.setFill fuel i p).length = 8 ∧
      ∀ j, (Packager.setFill fuel i p)[j]? = if i ≤ j ∧ j < 8 then some 0 else p[j]? := by
  intro fuel
  induction fuel with
  | zero =>
      intro i p hi hp
      simp only [Packager.setFill]
      refine ⟨hp, ?_⟩
      intro j
      rw [if_neg (by omega)]
  | succ n ih =>
      intro i p hi hp
      unfold Packager.setFill
      by_cases hc : i < 8
      · rw [if_pos hc]
        obtain ⟨h2, h3⟩ := ih (i + 1) (p.set i 0) (by omega) (by rw [List.length_set]; exact hp)
        refine ⟨h2, ?_⟩
        intro j
        rw [h3 j]
        by_cases hj : i + 1 ≤ j ∧ j < 8
        · rw [if_pos hj, if_pos ⟨by omega, hj.2⟩]
        · rw [if_neg hj]
          by_cases hij : i = j
          · subst hij
            rw [if_pos ⟨le_refl i, hc⟩, List.getElem?_set, if_pos rfl, if_pos (by omega)]
          · rw [List.getElem?_set_ne hij, if_neg (by omega)]
      · rw [if_neg hc]
        refine ⟨hp, ?_⟩
        intro j
        rw [if_neg (by omega)]

/-- The array after `Set`, index by index. -/
theorem Packager.Set_getElem? (p : Packager) (hp : p.length = 8) (str : List Nat) (j : Nat) :
    (Packager.Set p str)[j]? =
      if j < 8 then (if j < str.length then str[j]? else some 0) else none := by
  obtain ⟨h1, h2, h3⟩ := Packager.setCopy_spec str 8 0 p (by omega) hp
  obtain ⟨_, h5⟩ := Packager.setFill_spec 8 (Packager.setCopy str 8 0 p).1
    (Packager.setCopy str 8 0 p).2 (by omega) h2
  simp only [Packager.Set]
  rw [h5 j, h1, h3 j]
  by_cases hj : j < 8
  · rw [if_pos hj]
    by_cases hs : j < str.length
    · rw [if_pos hs, if_neg (by omega), if_pos ⟨by omega, hj, hs⟩]
    · rw [if_neg hs, if_pos ⟨by omega, hj⟩]
  · rw [if_neg hj, if_neg (by omega), if_neg (by omega)]
    exact List.getElem?_eq_none (by omega)

theorem Packager.Set_length (p : Packager) (hp : p.length = 8) (str : List Nat) :
    (Packager.Set p str).length = 8 := by
  obtain ⟨_, h2, _⟩ := Packager.setCopy_spec str 8 0 p (by omega) hp
  exact (Packager.setFill_spec 8 (Packager.setCopy str 8 0 p).1
    (Packager.setCopy str 8 0 p).2 (by omega) h2).1

/-- Closed form of `Set`: the first 8 bytes of the tag, zero-padded to 8. -/
theorem Packager.Set_eq (p : Packager) (hp : p.length = 8) (str : List Nat) :
    Packager.Set p str = str.take 8 ++ List.replicate (8 - str.length) 0 := by
  apply List.ext_getElem?
  intro j
  rw [Packager.Set_getElem? p hp str j, List.getElem?_append, List.getElem?_take,
    List.getElem?_replicate, List.length_take]
  by_cases hj : j < 8
  · by_cases hs : j < str.length
    · rw [if_pos hj, if_pos hs, if_pos (by omega), if_pos hj]
    · rw [if_pos hj, if_neg hs, if_neg (by omega), if_pos (by omega)]
  · rw [if_neg hj, if_neg (by omega), if_neg (by omega)]

/-- The result of `Equal` in terms of the bytes of an 8-byte array. -/
theorem Packager.Equal_iff (p : Packager) (hp : p.length = 8) (tag : List Nat) :
    Packager.Equal p tag = true ↔ ∀ i, i < 8 → i < tag.length → p[i]? = tag[i]? := by
  unfold Packager.Equal
  rw [Packager.equalLoop_iff p tag 8 0 (by omega)]
  constructor
  · intro h i h8 ht
    have := h i (Nat.zero_le i) h8 ht
    rw [List.getD_eq_getElem?_getD, List.getD_eq_getElem?_getD,
      List.getElem?_eq_getElem (show i < p.length by omega), List.getElem?_eq_getElem ht] at this
    rw [List.getElem?_eq_getElem (show i < p.length by omega), List.getElem?_eq_getElem ht]
    exact congrArg some this
  · intro h j _ h8 ht
    rw [List.getD_eq_getElem?_getD, List.getD_eq_getElem?_getD, h j h8 ht]

/-! ## Claims on the packager -/

/-- C3: Packager.Set postcondition. Whatever the 8-byte array held before,
after `Set(s)` it is still 8 bytes long, byte `i` is `s[i]` for every
`i < min(8, len(s))` and `0` for every `i` with `min(8, len(s)) <= i < 8`;
`Set("ABCDEFGHIJ")` leaves exactly `"ABCDEFGH"` and `Set("AB")` leaves `"AB"`
followed by six zero bytes. -/
theorem packager_set_post (p : Packager) (hp : p.length = 8) (s : List Nat) :
    (Packager.Set p s).length = 8 ∧
    (∀ i (_ : i < 8) (_ : i < s.length), (Packager.Set p s)[i]? = some s[i]) ∧
    (∀ i, min 8 s.length ≤ i → i < 8 → (Packager.Set p s)[i]? = some 0) ∧
    Packager.Set p (bytesOf "ABCDEFGHIJ") = bytesOf "ABCDEFGH" ∧
    Packager.Set p (bytesOf "AB") = bytesOf "AB" ++ [0, 0, 0, 0, 0, 0] := by
  refine ⟨Packager.Set_length p hp s, ?_, ?_, ?_, ?_⟩
  · intro i h8 hs
    rw [Packager.Set_getElem? p hp s i, if_pos h8, if_pos hs, List.getElem?_eq_getElem hs]
  · intro i hm h8
    rw [Packager.Set_getElem? p hp s i, if_pos h8, if_neg (by omega)]
  · rw [Packager.Set_eq p hp]; decide
  · rw [Packager.Set_eq p hp]; decide

/-- Witness of C3: an array holding 1..8 before the call. -/
theorem packager_set_post_witness :
    [1, 2, 3, 4, 5, 6, 7, 8].length = 8 ∧
    Packager.Set [1, 2, 3, 4, 5, 6, 7, 8] (bytesOf "AB") = [65, 66, 0, 0, 0, 0, 0, 0] :=
  ⟨by decide, (packager_set_post [1, 2, 3, 4, 5, 6, 7, 8] (by decide) []).2.2.2.2⟩

/-- C4: Packager.Equal characterisation. `p.Equal(tag)` is true exactly when
`p[i] = tag[i]` at every position `i < min(8, len(tag))`; so two arrays that
agree at these positions give the same result (the bytes of `p` from
`len(tag)` on are not compared), and `Equal("")` is true for every `p`. -/
theorem packager_equal_iff (p : Packager) (hp : p.length = 8) (tag : List Nat) :
    (Packager.Equal p tag = true ↔
      ∀ i (_ : i < min 8 tag.length), p[i]? = tag[i]?) ∧
    (∀ q : Packager, q.length = 8 → (∀ i, i < min 8 tag.length → p[i]? = q[i]?) →
      Packager.Equal q tag = Packager.Equal p tag) ∧
    Packager.Equal p [] = true := by
  refine ⟨?_, ?_, ?_⟩
  · rw [Packager.Equal_iff p hp tag]
    constructor
    · intro h i hi
      exact h i (by omega) (by omega)
    · intro h i h8 ht
      exact h i (by omega)
  · intro q hq hpq
    rw [Bool.eq_iff_iff, Packager.Equal_iff p hp tag, Packager.Equal_iff q hq tag]
    constructor
    · intro h i h8 ht
      rw [hpq i (by omega)]; exact h i h8 ht
    · intro h i h8 ht
      rw [← hpq i (by omega)]; exact h i h8 ht
  · rw [Packager.Equal_iff p hp []]
    intro i _ ht
    simp at ht

/-- Witness of C4: the tag `JS` against the array holding `JSON`. -/
theorem packager_equal_iff_witness :
    [74, 83, 79, 78, 0, 0, 0, 0].length = 8 ∧
    (Packager.Equal [74, 83, 79, 78, 0, 0, 0, 0] (bytesOf "JS") = true ↔
      ∀ i (_ : i < min 8 (bytesOf "JS").length),
        [74, 83, 79, 78, 0, 0, 0, 0][i]? = (bytesOf "JS")[i]?) :=
  ⟨by decide, (packager_equal_iff [74, 83, 79, 78, 0, 0, 0, 0] (by decide) (bytesOf "JS")).1⟩

/-- C5: Set followed by Equal. After `Set(s)` on any 8-byte array, `Equal(t)`
is true for every prefix `t` of `s` (so `Equal(s)` is true, whatever the length
of `s`), and false for every `t` that differs from the stored bytes at a
position below `min(8, len(t))`; after `Set("JSON")`, `Equal("JSON")` and
`Equal("JS")` are true, `Equal("JSONX")` and `Equal("XML")` are false. -/
theorem set_then_equal (p : Packager) (hp : p.length = 8) (s t : List Nat) :
    (t <+: s → Packager.Equal (Packager.Set p s) t = true) ∧
    Packager.Equal (Packager.Set p s) s = true ∧
    ((∃ i, i < min 8 t.length ∧ (Packager.Set p s)[i]? ≠ t[i]?) →
      Packager.Equal (Packager.Set p s) t = false) ∧
    Packager.Equal (Packager.Set p (bytesOf "JSON")) (bytesOf "JSON") = true ∧
    Packager.Equal (Packager.Set p (bytesOf "JSON")) (bytesOf "JS") = true ∧
    Packager.Equal (Packager.Set p (bytesOf "JSON")) (bytesOf "JSONX") = false ∧
    Packager.Equal (Packager.Set p (bytesOf "JSON")) (bytesOf "XML") = false := by
  have hl := Packager.Set_length p hp s
  have hpre : ∀ u : List Nat, u <+: s → Packager.Equal (Packager.Set p s) u = true := by
    intro u hu
    rw [Packager.Equal_iff _ hl u]
    intro i h8 hi
    obtain ⟨v, rfl⟩ := hu
    rw [Packager.Set_getElem? p hp _ i, if_pos h8,
      if_pos (by rw [List.length_append]; omega), List.getElem?_append_left hi]
  refine ⟨hpre t, hpre s (List.prefix_refl s), ?_, ?_, ?_, ?_, ?_⟩
  · rintro ⟨i, hi, hne⟩
    rw [← Bool.not_eq_true]
    intro h
    rw [Packager.Equal_iff _ hl t] at h
    exact hne (h i (by omega) (by omega))
  · rw [Packager.Set_eq p hp]; decide
  · rw [Packager.Set_eq p hp]; decide
  · rw [Packager.Set_eq p hp]; decide
  · rw [Packager.Set_eq p hp]; decide

/-- Witness of C5: the array zeroed before the call, `s = "JSON"`, `t = "JS"`. -/
theorem set_then_equal_witness :
    (List.replicate 8 0).length = 8 ∧ bytesOf "JS" <+: bytesOf "JSON" ∧
    Packager.Equal (Packager.Set (List.replicate 8 0) (bytesOf "JSON")) (bytesOf "JS") = true :=
  ⟨by decide, by decide,
    (set_then_equal (List.replicate 8 0) (by decide) (bytesOf "JSON") (bytesOf "JS")).1
      (by decide)⟩

/-! ## The writers -/

theorem messageHeader_WF (id : Nat) (hid : id < 2 ^ 32) (jbyte : List Nat) :
    (messageHeader id jbyte).WF := by
  have h16 : (0 : Nat) < 2 ^ 16 := by decide
  have h32 : (0 : Nat) < 2 ^ 32 := by decide
  have hm : (0x80DFEC60 : Nat) < 2 ^ 32 := by decide
  have hz : isBytes 32 (List.replicate 32 0) := by decide
  have hj : isBytes 8 [74, 83, 79, 78, 0, 0, 0, 0] := by decide
  exact ⟨hid, h16, hm, h32, hz, hz, Nat.mod_lt _ h32, hj⟩

theorem messageHeader_BodyLen (id : Nat) (jbyte : List Nat) :
    (messageHeader id jbyte).BodyLen = (jbyte.length + 8) % 2 ^ 32 := rfl

theorem messageHeader_encode_length (id : Nat) (jbyte : List Nat) :
    (messageHeader id jbyte).encode.length = 90 := by
  simp [Header.encode, messageHeader, putUint32_length, putUint16_length]

/-- The header `Request.Write` builds is `messageHeader`. -/
theorem request_write_eq (marshal : Request → Except Err (List Nat)) (r : Request)
    (w : Writer) (jbyte : List Nat) (hm : marshal r = Except.ok jbyte) :
    Request.Write marshal r w =
      match binaryWrite w (messageHeader r.ID jbyte) with
      | (some err, w1) => (some err, w1)
      | (none, w1) =>
          match w1.Write jbyte with
          | (some err, w2) => (some err, w2)
          | (none, w2) => (none, w2) := by
  have hs : Packager.Set (List.replicate 8 0) (bytesOf "JSON") = [74, 83, 79, 78, 0, 0, 0, 0] := by
    decide
  simp only [Request.Write, hm, Header.zero, hs, messageHeader]

/-- The header `Response.Write` builds is `messageHeader`. -/
theorem response_write_eq (marshal : Response → Except Err (List Nat)) (r : Response)
    (w : Writer) (jbyte : List Nat) (hm : marshal r = Except.ok jbyte) :
    Response.Write marshal r w =
      match binaryWrite w (messageHeader r.ID jbyte) with
      | (some err, w1) => (some err, w1)
      | (none, w1) =>
          match w1.Write jbyte with
          | (some err, w2) => (some err, w2)
          | (none, w2) => (none, w2) := by
  have hs : Packager.Set (List.replicate 8 0) (bytesOf "JSON") = [74, 83, 79, 78, 0, 0, 0, 0] := by
    decide
  simp only [Response.Write, hm, Header.zero, hs, messageHeader]

/-- A write whose header `Write` call succeeds leaves the header on the stream,
followed by the part of the body the second call accepted. -/
theorem write_steps_header (w : Writer) (hw : w.nextOk) (yh : Header) (jbyte : List Nat) :
    ∃ tail, tail <+: jbyte ∧
      (match binaryWrite w yh with
        | (some err, w1) => (some err, w1)
        | (none, w1) =>
            match w1.Write jbyte with
            | (some err, w2) => (some err, w2)
            | (none, w2) => (none, w2)).2.buf = w.buf ++ yh.encode ++ tail := by
  obtain ⟨buf, calls, script⟩ := w
  match script, hw with
  | [], _ => exact ⟨jbyte, List.prefix_refl _, rfl⟩
  | [WriteOutcome.ok], _ => exact ⟨jbyte, List.prefix_refl _, rfl⟩
  | WriteOutcome.ok :: WriteOutcome.ok :: _, _ => exact ⟨jbyte, List.prefix_refl _, rfl⟩
  | WriteOutcome.ok :: WriteOutcome.fail n e :: _, _ =>
      exact ⟨jbyte.take n, List.take_prefix n jbyte, rfl⟩

/-- A write on a writer that never fails. -/
theorem write_steps_ok (w : Writer) (hw : w.faultFree) (yh : Header) (jbyte : List Nat) :
    (match binaryWrite w yh with
      | (some err, w1) => (some err, w1)
      | (none, w1) =>
          match w1.Write jbyte with
          | (some err, w2) => (some err, w2)
          | (none, w2) => (none, w2))
      = (none, { buf := w.buf ++ yh.encode ++ jbyte, calls := w.calls + 2,
                 script := w.script.drop 2 }) := by
  obtain ⟨buf, calls, script⟩ := w
  match script, hw with
  | [], _ => rfl
  | [WriteOutcome.ok], _ => rfl
  | WriteOutcome.ok :: WriteOutcome.ok :: _, _ => rfl
  | WriteOutcome.ok :: WriteOutcome.fail n e :: _, h =>
      exact absurd (h (WriteOutcome.fail n e) (by simp)) (by simp)
  | WriteOutcome.fail n e :: _, h =>
      exact absurd (h (WriteOutcome.fail n e) (by simp)) (by simp)

/-- What `Request.Write` leaves on the stream when the header write succeeds:
the encoded `messageHeader`, which `ReadHeader` reads back, and a prefix of the
body. -/
theorem request_write_readback (marshal : Request → Except Err (List Nat)) (r : Request)
    (w : Writer) (jbyte : List Nat) (hr : r.WF) (hm : marshal r = Except.ok jbyte)
    (hw : w.nextOk) :
    readBack w (Request.Write marshal r w).2 = Except.ok (messageHeader r.ID jbyte) ∧
    ∃ tail, tail <+: jbyte ∧
      w.appended (Request.Write marshal r w).2 = (messageHeader r.ID jbyte).encode ++ tail := by
  obtain ⟨tail, ht, hb⟩ := write_steps_header w hw (messageHeader r.ID jbyte) jbyte
  rw [← request_write_eq marshal r w jbyte hm] at hb
  have ha : w.appended (Request.Write marshal r w).2
      = (messageHeader r.ID jbyte).encode ++ tail := by
    rw [Writer.appended, hb, List.append_assoc]
    exact List.drop_left _ _
  refine ⟨?_, tail, ht, ha⟩
  rw [readBack, ha, ReadHeader_encode_append _ (messageHeader_WF r.ID hr jbyte)]

/-- What `Response.Write` leaves on the stream when the header write succeeds. -/
theorem response_write_readback (marshal : Response → Except Err (List Nat)) (r : Response)
    (w : Writer) (jbyte : List Nat) (hr : r.WF) (hm : marshal r = Except.ok jbyte)
    (hw : w.nextOk) :
    readBack w (Response.Write marshal r w).2 = Except.ok (messageHeader r.ID jbyte) ∧
    ∃ tail, tail <+: jbyte ∧
      w.appended (Response.Write marshal r w).2 = (messageHeader r.ID jbyte).encode ++ tail := by
  obtain ⟨tail, ht, hb⟩ := write_steps_header w hw (messageHeader r.ID jbyte) jbyte
  rw [← response_write_eq marshal r w jbyte hm] at hb
  have ha : w.appended (Response.Write marshal r w).2
      = (messageHeader r.ID jbyte).encode ++ tail := by
    rw [Writer.appended, hb, List.append_assoc]
    exact List.drop_left _ _
  refine ⟨?_, tail, ht, ha⟩
  rw [readBack, ha, ReadHeader_encode_append _ (messageHeader_WF r.ID hr.1 jbyte)]

/-- The result of `Request.Write` on a writer that never fails. -/
theorem request_write_ok (marshal : Request → Except Err (List Nat)) (r : Request)
    (w : Writer) (jbyte : List Nat) (hm : marshal r = Except.ok jbyte) (hw : w.faultFree) :
    Request.Write marshal r w =
      (none, { buf := w.buf ++ (messageHeader r.ID jbyte).encode ++ jbyte,
               calls := w.calls + 2, script := w.script.drop 2 }) := by
  rw [request_write_eq marshal r w jbyte hm, write_steps_ok w hw]

/-- The result of `Response.Write` on a writer that never fails. -/
theorem response_write_ok (marshal : Response → Except Err (List Nat)) (r : Response)
    (w : Writer) (jbyte : List Nat) (hm : marshal r = Except.ok jbyte) (hw : w.faultFree) :
    Response.Write marshal r w =
      (none, { buf := w.buf ++ (messageHeader r.ID jbyte).encode ++ jbyte,
               calls := w.calls + 2, script := w.script.drop 2 }) := by
  rw [response_write_eq marshal r w jbyte hm, write_steps_ok w hw]

theorem appended_ok (w : Writer) (hdr body : List Nat) (c : Nat) (sc : List WriteOutcome) :
    w.appended { buf := w.buf ++ hdr ++ body, calls := c, script := sc } = hdr ++ body := by
  rw [Writer.appended, List.append_assoc]
  exact List.drop_left _ _

theorem faultFree_nextOk (w : Writer) (hw : w.faultFree) : w.nextOk := by
  obtain ⟨buf, calls, script⟩ := w
  match script, hw with
  | [], _ => trivial
  | WriteOutcome.ok :: _, _ => trivial
  | WriteOutcome.fail n e :: _, h =>
      exact absurd (h (WriteOutcome.fail n e) (by simp)) (by simp)

/-! ## A request with a long method name -/

theorem jsonString_replicate_a (n : Nat) :
    jsonString (String.mk (List.replicate n 'a')) = 34 :: (List.replicate n 97 ++ [34]) := by
  have hf : ∀ k : Nat,
      (List.replicate k 'a').foldr (fun c acc => jsonChar c.toNat ++ acc) [34]
        = List.replicate k 97 ++ [34] := by
    intro k
    induction k with
    | zero => rfl
    | succ k ih =>
        rw [List.replicate_succ, List.foldr_cons, ih, List.replicate_succ]
        rfl
  show 34 :: (List.replicate n 'a').foldr (fun c acc => jsonChar c.toNat ++ acc) [34] = _
  rw [hf n]

/-- The JSON text of `longRequest n`, `n + 23` bytes long. -/
theorem longRequest_marshal (n : Nat) :
    Request.Marshal (longRequest n) = Except.ok (longJSON n) ∧ (longJSON n).length = n + 23 := by
  constructor
  · simp only [Request.Marshal, longRequest, jsonString_replicate_a, longJSON]
    have h1 : bytesOf "\x7b\"i\":" ++ decimal 1 ++ bytesOf ",\"m\":"
        = [123, 34, 105, 34, 58, 49, 44, 34, 109, 34, 58] := by decide
    have h2 : bytesOf "\x7b\"i\":1,\"m\":\"" = [123, 34, 105, 34, 58, 49, 44, 34, 109, 34, 58, 34] := by
      decide
    have h3 : bytesOf ",\"p\":" ++ bytesOf "null" ++ bytesOf "\x7d"
        = [44, 34, 112, 34, 58, 110, 117, 108, 108, 125] := by decide
    have h4 : bytesOf "\",\"p\":null\x7d" = [34, 44, 34, 112, 34, 58, 110, 117, 108, 108, 125] := by
      decide
    rw [h2, h4]
    simp only [List.append_assoc] at h3 ⊢
    rw [h3]
    rw [← List.append_assoc (bytesOf _), ← List.append_assoc (bytesOf _ ++ _), h1]
    simp
  · have h2 : (bytesOf "\x7b\"i\":1,\"m\":\"").length = 12 := by decide
    have h4 : (bytesOf "\",\"p\":null\x7d").length = 11 := by decide
    rw [longJSON, List.length_append, List.length_append, List.length_replicate, h2, h4]
    omega

/-! ## Claims on the writers -/

/-- C6, as stated, fails: the request with a method name of 4294967265 letters
has a JSON text of `N = 2^32 - 8` bytes, and the header `Request.Write` emits
for it reads back with `BodyLen = 0`, not `N + 8`. -/
theorem bodylen_counterexample :
    Request.Marshal (longRequest 4294967265) = Except.ok (longJSON 4294967265) ∧
    (longJSON 4294967265).length = 4294967288 ∧
    ∃ h, readBack emptyWriter
        (Request.Write Request.Marshal (longRequest 4294967265) emptyWriter).2 = Except.ok h ∧
      h.BodyLen = 0 ∧ h.BodyLen ≠ (longJSON 4294967265).length + 8 := by
  obtain ⟨hm, hl0⟩ := longRequest_marshal 4294967265
  have hl : (longJSON 4294967265).length = 4294967288 := by rw [hl0]
  have hr : (longRequest 4294967265).WF := by
    show (1 : Nat) < 2 ^ 32
    decide
  have hb : (messageHeader 1 (longJSON 4294967265)).BodyLen = 0 := by
    rw [messageHeader_BodyLen, hl]
    decide
  refine ⟨hm, hl, messageHeader 1 (longJSON 4294967265), ?_, hb, ?_⟩
  · exact (request_write_readback Request.Marshal (longRequest 4294967265) emptyWriter
      (longJSON 4294967265) hr hm trivial).1
  · rw [hb, hl]
    decide

/-- C6, amended: BodyLen arithmetic. For a Request or a Response whose JSON
text is `N` bytes with `N + 8 < 2^32`, the header that `Write` puts on the
stream has `BodyLen = N + 8`; and on a stream where no write fails the bytes
after the 90 header bytes are the `N = BodyLen - 8` bytes of the JSON text. -/
theorem bodylen_arithmetic (J : List Nat) (w : Writer) (hJ : J.length + 8 < 2 ^ 32)
    (hw : w.nextOk) :
    (∀ (marshal : Request → Except Err (List Nat)) (r : Request),
      r.WF → marshal r = Except.ok J →
      ∃ h, readBack w (Request.Write marshal r w).2 = Except.ok h ∧
        h.BodyLen = J.length + 8 ∧
        (w.faultFree → (w.appended (Request.Write marshal r w).2).drop 90 = J ∧
          J.length = h.BodyLen - 8)) ∧
    (∀ (marshal : Response → Except Err (List Nat)) (r : Response),
      r.WF → marshal r = Except.ok J →
      ∃ h, readBack w (Response.Write marshal r w).2 = Except.ok h ∧
        h.BodyLen = J.length + 8 ∧
        (w.faultFree → (w.appended (Response.Write marshal r w).2).drop 90 = J ∧
          J.length = h.BodyLen - 8)) := by
  have hb : ∀ id, (messageHeader id J).BodyLen = J.length + 8 := fun id =>
    Nat.mod_eq_of_lt hJ
  constructor
  · intro marshal r hr hm
    refine ⟨messageHeader r.ID J, (request_write_readback marshal r w J hr hm hw).1, hb _, ?_⟩
    intro hf
    rw [request_write_ok marshal r w J hm hf, appended_ok, hb]
    exact ⟨List.drop_left' (messageHeader_encode_length r.ID J), by omega⟩
  · intro marshal r hr hm
    refine ⟨messageHeader r.ID J, (response_write_readback marshal r w J hr hm hw).1, hb _, ?_⟩
    intro hf
    rw [response_write_ok marshal r w J hm hf, appended_ok, hb]
    exact ⟨List.drop_left' (messageHeader_encode_length r.ID J), by omega⟩

/-- Witness of C6 (amended): the request of the end-to-end scenario on a fresh
writer. -/
theorem bodylen_arithmetic_witness :
    addJSON.length + 8 < 2 ^ 32 ∧ emptyWriter.nextOk ∧ addRequest.WF ∧
    Request.Marshal addRequest = Except.ok addJSON ∧
    ∃ h, readBack emptyWriter (Request.Write Request.Marshal addRequest emptyWriter).2
        = Except.ok h ∧
      h.BodyLen = addJSON.length + 8 ∧
      (emptyWriter.faultFree →
        (emptyWriter.appended (Request.Write Request.Marshal addRequest emptyWriter).2).drop 90
          = addJSON ∧ addJSON.length = h.BodyLen - 8) :=
  ⟨by decide, by decide, by decide, rfl,
    (bodylen_arithmetic addJSON emptyWriter (by decide) (by decide)).1 Request.Marshal addRequest
      (by decide) rfl⟩

theorem messageHeader_bytes_4_10 (id : Nat) (J tail : List Nat) :
    (((messageHeader id J).encode ++ tail).drop 4).take 6 = [0, 0, 0x80, 0xDF, 0xEC, 0x60] := by
  have e1 : putUint16 0 = [0, 0] := by decide
  have e2 : putUint32 0x80DFEC60 = [0x80, 0xDF, 0xEC, 0x60] := by decide
  have e : ∀ rest : List Nat, putUint16 0 ++ (putUint32 0x80DFEC60 ++ rest)
      = [0, 0, 0x80, 0xDF, 0xEC, 0x60] ++ rest := by
    intro rest
    rw [e1, e2]
    rfl
  simp only [Header.encode, messageHeader, List.append_assoc]
  rw [List.drop_left' (putUint32_length id), e]
  exact List.take_left' rfl

/-- C7: Magic number constant. When the JSON serialization of a Request or a
Response succeeds and the header write on the stream succeeds, the header put
on the stream reads back with `MagicNum = 0x80DFEC60` and `Version = 0`, and
bytes 4-5 of the message are `00 00` and bytes 6-9 are `80 DF EC 60`. -/
theorem magic_and_version (J : List Nat) (w : Writer) (hw : w.nextOk) :
    (∀ (marshal : Request → Except Err (List Nat)) (r : Request),
      r.WF → marshal r = Except.ok J →
      (∃ h, readBack w (Request.Write marshal r w).2 = Except.ok h ∧
        h.MagicNum = 0x80DFEC60 ∧ h.Version = 0) ∧
      ((w.appended (Request.Write marshal r w).2).drop 4).take 6
        = [0, 0, 0x80, 0xDF, 0xEC, 0x60]) ∧
    (∀ (marshal : Response → Except Err (List Nat)) (r : Response),
      r.WF → marshal r = Except.ok J →
      (∃ h, readBack w (Response.Write marshal r w).2 = Except.ok h ∧
        h.MagicNum = 0x80DFEC60 ∧ h.Version = 0) ∧
      ((w.appended (Response.Write marshal r w).2).drop 4).take 6
        = [0, 0, 0x80, 0xDF, 0xEC, 0x60]) := by
  constructor
  · intro marshal r hr hm
    obtain ⟨h1, tail, _, h2⟩ := request_write_readback marshal r w J hr hm hw
    exact ⟨⟨messageHeader r.ID J, h1, rfl, rfl⟩, by rw [h2, messageHeader_bytes_4_10]⟩
  · intro marshal r hr hm
    obtain ⟨h1, tail, _, h2⟩ := response_write_readback marshal r w J hr hm hw
    exact ⟨⟨messageHeader r.ID J, h1, rfl, rfl⟩, by rw [h2, messageHeader_bytes_4_10]⟩

/-- Witness of C7: the request of the end-to-end scenario on a fresh writer. -/
theorem magic_and_version_witness :
    emptyWriter.nextOk ∧ addRequest.WF ∧ Request.Marshal addRequest = Except.ok addJSON ∧
    ((emptyWriter.appended (Request.Write Request.Marshal addRequest emptyWriter).2).drop 4).take 6
      = [0, 0, 0x80, 0xDF, 0xEC, 0x60] :=
  ⟨by decide, by decide, rfl,
    ((magic_and_version addJSON emptyWriter (by decide)).1 Request.Marshal addRequest
      (by decide) rfl).2⟩

/-- C8: Remaining header fields of a written message. When the JSON
serialization of a Request or a Response `r` succeeds and the header write on
the stream succeeds, the header put on the stream reads back with `ID = r.ID`,
`Reserved = 0`, 32 zero Provider bytes, 32 zero Token bytes, and `PkgName`
equal to `J`, `S`, `O`, `N` followed by four zero bytes. -/
theorem remaining_header_fields (J : List Nat) (w : Writer) (hw : w.nextOk) :
    (∀ (marshal : Request → Except Err (List Nat)) (r : Request),
      r.WF → marshal r = Except.ok J →
      ∃ h, readBack w (Request.Write marshal r w).2 = Except.ok h ∧
        h.ID = r.ID ∧ h.Reserved = 0 ∧ h.Provider = List.replicate 32 0 ∧
        h.Token = List.replicate 32 0 ∧ h.PkgName = bytesOf "JSON" ++ [0, 0, 0, 0]) ∧
    (∀ (marshal : Response → Except Err (List Nat)) (r : Response),
      r.WF → marshal r = Except.ok J →
      ∃ h, readBack w (Response.Write marshal r w).2 = Except.ok h ∧
        h.ID = r.ID ∧ h.Reserved = 0 ∧ h.Provider = List.replicate 32 0 ∧
        h.Token = List.replicate 32 0 ∧ h.PkgName = bytesOf "JSON" ++ [0, 0, 0, 0]) := by
  constructor
  · intro marshal r hr hm
    exact ⟨messageHeader r.ID J, (request_write_readback marshal r w J hr hm hw).1,
      rfl, rfl, rfl, rfl, rfl⟩
  · intro marshal r hr hm
    exact ⟨messageHeader r.ID J, (response_write_readback marshal r w J hr hm hw).1,
      rfl, rfl, rfl, rfl, rfl⟩

/-- Witness of C8: the response of the error-path scenario on a fresh writer. -/
theorem remaining_header_fields_witness :
    emptyWriter.nextOk ∧ notFoundResponse.WF ∧
    (∃ J, Response.Marshal notFoundResponse = Except.ok J ∧
      ∃ h, readBack emptyWriter (Response.Write Response.Marshal notFoundResponse emptyWriter).2
          = Except.ok h ∧
        h.ID = notFoundResponse.ID ∧ h.Reserved = 0 ∧ h.Provider = List.replicate 32 0 ∧
        h.Token = List.replicate 32 0 ∧ h.PkgName = bytesOf "JSON" ++ [0, 0, 0, 0]) :=
  ⟨by decide, by decide, _, rfl,
    (remaining_header_fields _ emptyWriter (by decide)).2 Response.Marshal notFoundResponse
      (by decide) rfl⟩

/-- C9: Framing of a successful write. When the JSON serialization of a
Request or a Response succeeds with bytes `J` and no write on the stream fails,
`Write` returns a nil error after two `Write` calls on the stream, and the
stream has grown by exactly the 90 header bytes followed by `J`, that is by
`90 + len(J)` bytes; a reader of the new bytes gets the header and is then
left at the first byte of `J`. -/
theorem framing_of_successful_write (J : List Nat) (w : Writer) (hw : w.faultFree) :
    (∀ (marshal : Request → Except Err (List Nat)) (r : Request), marshal r = Except.ok J →
      (Request.Write marshal r w).1 = none ∧
      (Request.Write marshal r w).2.buf = w.buf ++ (messageHeader r.ID J).encode ++ J ∧
      (messageHeader r.ID J).encode.length = 90 ∧
      (Request.Write marshal r w).2.buf.length = w.buf.length + (90 + J.length) ∧
      (Request.Write marshal r w).2.calls = w.calls + 2 ∧
      (r.WF → ReadHeader { data := w.appended (Request.Write marshal r w).2, fault := none }
        = (Except.ok (messageHeader r.ID J), { data := J, fault := none }))) ∧
    (∀ (marshal : Response → Except Err (List Nat)) (r : Response), marshal r = Except.ok J →
      (Response.Write marshal r w).1 = none ∧
      (Response.Write marshal r w).2.buf = w.buf ++ (messageHeader r.ID J).encode ++ J ∧
      (messageHeader r.ID J).encode.length = 90 ∧
      (Response.Write marshal r w).2.buf.length = w.buf.length + (90 + J.length) ∧
      (Response.Write marshal r w).2.calls = w.calls + 2 ∧
      (r.WF → ReadHeader { data := w.appended (Response.Write marshal r w).2, fault := none }
        = (Except.ok (messageHeader r.ID J), { data := J, fault := none }))) := by
  constructor
  · intro marshal r hm
    have hl := messageHeader_encode_length r.ID J
    rw [request_write_ok marshal r w J hm hw, appended_ok]
    refine ⟨rfl, rfl, hl, ?_, rfl, ?_⟩
    · simp only [List.length_append, hl]; omega
    · intro hr
      exact ReadHeader_encode_append _ (messageHeader_WF r.ID hr J) J none
  · intro marshal r hm
    have hl := messageHeader_encode_length r.ID J
    rw [response_write_ok marshal r w J hm hw, appended_ok]
    refine ⟨rfl, rfl, hl, ?_, rfl, ?_⟩
    · simp only [List.length_append, hl]; omega
    · intro hr
      exact ReadHeader_encode_append _ (messageHeader_WF r.ID hr.1 J) J none

/-- Witness of C9: the request of the end-to-end scenario on a fresh writer. -/
theorem framing_of_successful_write_witness :
    emptyWriter.faultFree ∧ Request.Marshal addRequest = Except.ok addJSON ∧
    (Request.Write Request.Marshal addRequest emptyWriter).1 = none ∧
    (Request.Write Request.Marshal addRequest emptyWriter).2.buf.length
      = emptyWriter.buf.length + (90 + addJSON.length) :=
  ⟨by decide, rfl,
    ((framing_of_successful_write addJSON emptyWriter (by decide)).1 Request.Marshal addRequest
      rfl).1,
    ((framing_of_successful_write addJSON emptyWriter (by decide)).1 Request.Marshal addRequest
      rfl).2.2.2.1⟩

/-- C10, as stated, fails: the JSON text of the scenario is 27 bytes, not 18,
and the header `Request.Write` emits for it reads back with `BodyLen = 35`,
not 26. -/
theorem end_to_end_counterexample :
    Request.Marshal addRequest = Except.ok addJSON ∧
    addJSON.length = 27 ∧ addJSON.length ≠ 18 ∧
    ∃ h, readBack emptyWriter (Request.Write Request.Marshal addRequest emptyWriter).2
        = Except.ok h ∧
      h.BodyLen = 35 ∧ h.BodyLen ≠ 26 := by
  refine ⟨rfl, by decide, by decide, messageHeader 1 addJSON, ?_, by decide, by decide⟩
  exact (request_write_readback Request.Marshal addRequest emptyWriter addJSON (by decide) rfl
    (by decide)).1

/-- C10, amended: End-to-end scenario. Writing `Request{ID:1, Method:"add",
Params:[1,2]}`, whose JSON text is the 27 bytes `{"i":1,"m":"add","p":[1,2]}`,
to a fresh stream puts there a 90-byte header followed by these 27 bytes; the
header read back by `ReadHeader` has `BodyLen = 35`, `ID = 1`,
`MagicNum = 0x80DFEC60` and `PkgName.Equal("JSON") = true`, and the reader is
left at the JSON text. -/
theorem end_to_end (marshal : Request → Except Err (List Nat))
    (hm : marshal addRequest = Except.ok addJSON) :
    addJSON.length = 27 ∧
    (Request.Write marshal addRequest emptyWriter).1 = none ∧
    (Request.Write marshal addRequest emptyWriter).2.buf.length = 90 + 27 ∧
    (Request.Write marshal addRequest emptyWriter).2.buf.drop 90 = addJSON ∧
    ∃ h, ReadHeader { data := (Request.Write marshal addRequest emptyWriter).2.buf, fault := none }
        = (Except.ok h, { data := addJSON, fault := none }) ∧
      h.BodyLen = 35 ∧ h.ID = 1 ∧ h.MagicNum = 0x80DFEC60 ∧
      Packager.Equal h.PkgName (bytesOf "JSON") = true := by
  have hw : Request.Write marshal addRequest emptyWriter
      = (none, { buf := (messageHeader 1 addJSON).encode ++ addJSON, calls := 2, script := [] }) :=
    request_write_ok marshal addRequest emptyWriter addJSON hm (by decide)
  rw [hw]
  refine ⟨by decide, rfl, by decide, by decide, messageHeader 1 addJSON, ?_,
    by decide, rfl, rfl, by decide⟩
  exact ReadHeader_encode_append _ (messageHeader_WF 1 (by decide) addJSON) addJSON none

/-- Witness of C10 (amended): the JSON text as `Request.Marshal` gives it. -/
theorem end_to_end_witness :
    Request.Marshal addRequest = Except.ok addJSON ∧
    (Request.Write Request.Marshal addRequest emptyWriter).2.buf.length = 90 + 27 :=
  ⟨rfl, (end_to_end Request.Marshal rfl).2.2.1⟩

/-! ## Claims on the failure paths -/

/-- C11: Serialization fault on a Request. When the JSON serialization of a
Request fails with an error, `Request.Write` returns that error, and the writer
is as it was before: no byte has reached it and no `Write` call was made on
it. -/
theorem request_marshal_fault (marshal : Request → Except Err (List Nat)) (r : Request)
    (w : Writer) (e : Err) (hm : marshal r = Except.error e) :
    Request.Write marshal r w = (some e, w) ∧
    w.appended (Request.Write marshal r w).2 = [] ∧
    (Request.Write marshal r w).2.calls = w.calls := by
  have h : Request.Write marshal r w = (some e, w) := by
    simp only [Request.Write, hm]
  rw [h]
  exact ⟨rfl, by simp [Writer.appended], rfl⟩

/-- Witness of C11: a request with a channel among its parameters. -/
theorem request_marshal_fault_witness :
    Request.Marshal chanRequest = Except.error (Err.marshal 0) ∧
    Request.Write Request.Marshal chanRequest emptyWriter = (some (Err.marshal 0), emptyWriter) :=
  ⟨rfl, (request_marshal_fault Request.Marshal chanRequest emptyWriter (Err.marshal 0) rfl).1⟩

/-- C12 fails on the code: the JSON serialization of the response with a
channel as its result fails, and `Response.Write` returns a nil error (and
writes nothing), where `Request.Write` returns the error of the
serialization. -/
theorem response_marshal_fault_discarded :
    Response.Marshal chanResponse = Except.error (Err.marshal 0) ∧
    Response.Write Response.Marshal chanResponse emptyWriter = (none, emptyWriter) ∧
    Request.Marshal chanRequest = Except.error (Err.marshal 0) ∧
    Request.Write Request.Marshal chanRequest emptyWriter
      = (some (Err.marshal 0), emptyWriter) :=
  ⟨rfl, rfl, rfl, rfl⟩

/-! ## Claims on the header reader -/

/-- The result of `ReadHeader` on a stream with at least 90 bytes. -/
theorem ReadHeader_of_le (b : List Nat) (f : Option Err) (hb : 90 ≤ b.length) :
    ReadHeader { data := b, fault := f }
      = (Except.ok (Header.decode (b.take 90)), { data := b.drop 90, fault := f }) := by
  simp [ReadHeader, Reader.ReadFull, headerSize, hb]

/-- The result of `ReadHeader` on a stream with fewer than 90 bytes. -/
theorem ReadHeader_of_lt (b : List Nat) (f : Option Err) (hb : b.length < 90) :
    (ReadHeader { data := b, fault := f }).1
      = Except.error
          (if 0 < b.length ∧ f.getD Err.EOF = Err.EOF then Err.ErrUnexpectedEOF
            else f.getD Err.EOF) := by
  have h : ¬ 90 ≤ b.length := by omega
  cases f <;> simp only [ReadHeader, Reader.ReadFull, headerSize, h, if_false, Option.getD]

/-- C13: ReadHeader failure and lack of validation. On a stream that yields
fewer than 90 bytes `ReadHeader` returns an error and no header: `io.EOF` when
the stream ends at once, `io.ErrUnexpectedEOF` when it ends after some bytes,
and the fault of the stream when it has one. On a stream that yields at least
90 bytes it returns a header whatever the bytes are, and every `MagicNum` and
`Version` comes back from some stream: nothing is validated. -/
theorem read_header_failure (r : Reader) :
    (r.data.length < 90 → ∃ e, (ReadHeader r).1 = Except.error e) ∧
    (r.data = [] → r.fault = none → (ReadHeader r).1 = Except.error Err.EOF) ∧
    (0 < r.data.length → r.data.length < 90 → r.fault = none →
      (ReadHeader r).1 = Except.error Err.ErrUnexpectedEOF) ∧
    (r.data.length < 90 → ∀ e, r.fault = some e → e ≠ Err.EOF →
      (ReadHeader r).1 = Except.error e) ∧
    (90 ≤ r.data.length → (ReadHeader r).1 = Except.ok (Header.decode (r.data.take 90))) ∧
    (∀ m v, m < 2 ^ 32 → v < 2 ^ 16 → ∃ bs h, bs.length = 90 ∧
      (ReadHeader { data := bs, fault := r.fault }).1 = Except.ok h ∧
      h.MagicNum = m ∧ h.Version = v) := by
  obtain ⟨b, f⟩ := r
  refine ⟨?_, ?_, ?_, ?_, ?_, ?_⟩
  · intro hb
    exact ⟨_, ReadHeader_of_lt b f hb⟩
  · intro hb hf
    simp only at hb hf
    subst hb hf
    rfl
  · intro h0 hb hf
    simp only at h0 hb hf
    subst hf
    rw [ReadHeader_of_lt b none hb, if_pos ⟨h0, rfl⟩]
  · intro hb e hf hne
    simp only at hb hf
    subst hf
    rw [ReadHeader_of_lt b (some e) hb, if_neg (fun h => hne h.2)]
    rfl
  · intro hb
    rw [ReadHeader_of_le b f hb]
  · intro m v hm hv
    have hwf : Header.WF { exampleHeader with MagicNum := m, Version := v } := by
      have he : exampleHeader.WF := by decide
      exact ⟨he.1, hv, hm, he.2.2.2⟩
    refine ⟨_, { exampleHeader with MagicNum := m, Version := v },
      Header.encode_length _ hwf, ?_, rfl, rfl⟩
    have := ReadHeader_encode_append _ hwf [] f
    rw [List.append_nil] at this
    rw [this]

/-- Witness of C13: a stream that ends after three bytes. -/
theorem read_header_failure_witness :
    (ReadHeader { data := [1, 2, 3], fault := none }).1 = Except.error Err.ErrUnexpectedEOF :=
  (read_header_failure { data := [1, 2, 3], fault := none }).2.2.1 (by decide) (by decide) rfl

/-- C14: ReadHeader consumes exactly 90 bytes. On a stream holding the bytes
`b` with `len(b) >= 90`, `ReadHeader` returns the header decoded from
`b[0..90)` and leaves the stream at byte 90, with `b[90..)` unread; two
streams with the same first 90 bytes give the same header. -/
theorem read_header_consumes_90 (b : List Nat) (f : Option Err) (hb : 90 ≤ b.length) :
    ReadHeader { data := b, fault := f }
      = (Except.ok (Header.decode (b.take 90)), { data := b.drop 90, fault := f }) ∧
    (ReadHeader { data := b, fault := f }).2.data.length + 90 = b.length ∧
    (∀ (c : List Nat) (g : Option Err), 90 ≤ c.length → c.take 90 = b.take 90 →
      (ReadHeader { data := c, fault := g }).1 = (ReadHeader { data := b, fault := f }).1) := by
  rw [ReadHeader_of_le b f hb]
  refine ⟨rfl, ?_, ?_⟩
  · simp only [List.length_drop]
    omega
  · intro c g hc hcb
    rw [ReadHeader_of_le c g hc, hcb]

/-- Witness of C14: an encoded header followed by three more bytes. -/
theorem read_header_consumes_90_witness :
    90 ≤ (exampleHeader.encode ++ [1, 2, 3]).length ∧
    (ReadHeader { data := exampleHeader.encode ++ [1, 2, 3], fault := none }).2.data.length + 90
      = (exampleHeader.encode ++ [1, 2, 3]).length :=
  ⟨by decide, (read_header_consumes_90 (exampleHeader.encode ++ [1, 2, 3]) none (by decide)).2.1⟩

/-! ## Scenarios and failure modes of the writers -/

/-- C15: Response error path. Writing `Response{ID:7, Status:-1, Error:"not
found"}`, whose JSON text is `{"i":7,"s":-1,"r":null,"o":"","e":"not found"}`,
to a fresh stream succeeds; the body on the stream is that text, which holds
`"e":"not found"` and `"s":-1` and has the keys `i`, `s`, `r`, `o`, `e` all
present; and the header read back has `BodyLen = len(body) + 8`. -/
theorem response_error_path (marshal : Response → Except Err (List Nat))
    (hm : marshal notFoundResponse = Except.ok notFoundJSON) :
    (Response.Write marshal notFoundResponse emptyWriter).1 = none ∧
    (Response.Write marshal notFoundResponse emptyWriter).2.buf.drop 90 = notFoundJSON ∧
    bytesOf "\"e\":\"not found\"" <:+: notFoundJSON ∧
    bytesOf "\"s\":-1" <:+: notFoundJSON ∧
    bytesOf "\"i\":7" <:+: notFoundJSON ∧
    bytesOf "\"r\":null" <:+: notFoundJSON ∧
    bytesOf "\"o\":\"\"" <:+: notFoundJSON ∧
    ∃ h, ReadHeader { data := (Response.Write marshal notFoundResponse emptyWriter).2.buf,
                      fault := none }
        = (Except.ok h, { data := notFoundJSON, fault := none }) ∧
      h.BodyLen = notFoundJSON.length + 8 := by
  have hw : Response.Write marshal notFoundResponse emptyWriter
      = (none, { buf := (messageHeader 7 notFoundJSON).encode ++ notFoundJSON, calls := 2,
                 script := [] }) :=
    response_write_ok marshal notFoundResponse emptyWriter notFoundJSON hm (by decide)
  rw [hw]
  refine ⟨rfl, by decide, by decide, by decide, by decide, by decide, by decide,
    messageHeader 7 notFoundJSON, ?_, by decide⟩
  exact ReadHeader_encode_append _ (messageHeader_WF 7 (by decide) notFoundJSON) notFoundJSON none

/-- Witness of C15: the JSON text as `Response.Marshal` gives it. -/
theorem response_error_path_witness :
    Response.Marshal notFoundResponse = Except.ok notFoundJSON ∧
    (Response.Write Response.Marshal notFoundResponse emptyWriter).1 = none ∧
    (Response.Write Response.Marshal notFoundResponse emptyWriter).2.buf.drop 90 = notFoundJSON :=
  ⟨rfl, (response_error_path Response.Marshal rfl).1, (response_error_path Response.Marshal rfl).2.1⟩

/-- The result of `Request.Write` when the header write succeeds and the body
write accepts `n` bytes and fails with `e`. -/
theorem request_write_body_fail (marshal : Request → Except Err (List Nat)) (r : Request)
    (w : Writer) (jbyte : List Nat) (n : Nat) (e : Err) (rest : List WriteOutcome)
    (hm : marshal r = Except.ok jbyte)
    (hs : w.script = WriteOutcome.ok :: WriteOutcome.fail n e :: rest) :
    Request.Write marshal r w =
      (some e, { buf := w.buf ++ (messageHeader r.ID jbyte).encode ++ jbyte.take n,
                 calls := w.calls + 2, script := rest }) := by
  rw [request_write_eq marshal r w jbyte hm]
  obtain ⟨buf, calls, script⟩ := w
  simp only at hs
  subst hs
  rfl

/-- The result of `Response.Write` when the header write succeeds and the body
write accepts `n` bytes and fails with `e`. -/
theorem response_write_body_fail (marshal : Response → Except Err (List Nat)) (r : Response)
    (w : Writer) (jbyte : List Nat) (n : Nat) (e : Err) (rest : List WriteOutcome)
    (hm : marshal r = Except.ok jbyte)
    (hs : w.script = WriteOutcome.ok :: WriteOutcome.fail n e :: rest) :
    Response.Write marshal r w =
      (some e, { buf := w.buf ++ (messageHeader r.ID jbyte).encode ++ jbyte.take n,
                 calls := w.calls + 2, script := rest }) := by
  rw [response_write_eq marshal r w jbyte hm]
  obtain ⟨buf, calls, script⟩ := w
  simp only at hs
  subst hs
  rfl

/-- The result of `Request.Write` when the header write accepts `n` bytes and
fails with `e`: the body write is not made. -/
theorem request_write_header_fail (marshal : Request → Except Err (List Nat)) (r : Request)
    (w : Writer) (jbyte : List Nat) (n : Nat) (e : Err) (rest : List WriteOutcome)
    (hm : marshal r = Except.ok jbyte) (hs : w.script = WriteOutcome.fail n e :: rest) :
    Request.Write marshal r w =
      (some e, { buf := w.buf ++ (messageHeader r.ID jbyte).encode.take n,
                 calls := w.calls + 1, script := rest }) := by
  rw [request_write_eq marshal r w jbyte hm]
  obtain ⟨buf, calls, script⟩ := w
  simp only at hs
  subst hs
  rfl

/-- The result of `Response.Write` when the header write accepts `n` bytes and
fails with `e`: the body write is not made. -/
theorem response_write_header_fail (marshal : Response → Except Err (List Nat)) (r : Response)
    (w : Writer) (jbyte : List Nat) (n : Nat) (e : Err) (rest : List WriteOutcome)
    (hm : marshal r = Except.ok jbyte) (hs : w.script = WriteOutcome.fail n e :: rest) :
    Response.Write marshal r w =
      (some e, { buf := w.buf ++ (messageHeader r.ID jbyte).encode.take n,
                 calls := w.calls + 1, script := rest }) := by
  rw [response_write_eq marshal r w jbyte hm]
  obtain ⟨buf, calls, script⟩ := w
  simp only at hs
  subst hs
  rfl

theorem nextOk_of_script_ok (w : Writer) (rest : List WriteOutcome)
    (hs : w.script = WriteOutcome.ok :: rest) : w.nextOk := by
  obtain ⟨buf, calls, script⟩ := w
  simp only at hs
  subst hs
  trivial

/-- C16, as stated, fails: for the request with a method name of 4294967265
letters, on a stream whose header write succeeds and whose body write fails,
`Request.Write` returns the error of the body write and leaves a header that
reads back with `BodyLen = 0`, not `len(JSON) + 8`. -/
theorem partial_message_counterexample :
    Request.Marshal (longRequest 4294967265) = Except.ok (longJSON 4294967265) ∧
    (Request.Write Request.Marshal (longRequest 4294967265)
      (bodyFailWriter 0 (Err.stream 1))).1 = some (Err.stream 1) ∧
    ∃ h, readBack (bodyFailWriter 0 (Err.stream 1))
        (Request.Write Request.Marshal (longRequest 4294967265)
          (bodyFailWriter 0 (Err.stream 1))).2 = Except.ok h ∧
      h.BodyLen = 0 ∧ h.BodyLen ≠ (longJSON 4294967265).length + 8 := by
  obtain ⟨hm, hl0⟩ := longRequest_marshal 4294967265
  have hl : (longJSON 4294967265).length = 4294967288 := by rw [hl0]
  have hr : (longRequest 4294967265).WF := by
    show (1 : Nat) < 2 ^ 32
    decide
  have hb : (messageHeader 1 (longJSON 4294967265)).BodyLen = 0 := by
    rw [messageHeader_BodyLen, hl]
    decide
  refine ⟨hm, ?_, messageHeader 1 (longJSON 4294967265), ?_, hb, ?_⟩
  · rw [request_write_body_fail Request.Marshal _ (bodyFailWriter 0 (Err.stream 1)) _ 0
      (Err.stream 1) [] hm rfl]
  · exact (request_write_readback Request.Marshal (longRequest 4294967265)
      (bodyFailWriter 0 (Err.stream 1)) (longJSON 4294967265) hr hm trivial).1
  · rw [hb, hl]
    decide

/-- C16, amended: Partial-message failure mode. For a Request or a Response
whose JSON serialization succeeds with `J`: if the header write succeeds and
the body write accepts `n` bytes and fails with `e`, `Write` returns `e` after
these two calls, with no further call, and the stream holds, after what it held
before, the complete 90-byte header, whose `BodyLen` is `(len(J) + 8) mod 2^32`
(which is `len(J) + 8` when that is below `2^32`), followed by the `n` bytes of
the body that were accepted; if the header write itself fails with `e`, `Write`
returns `e` after that one call and the body write is not made. -/
theorem partial_message_failure (J : List Nat) (w : Writer) (n : Nat) (e : Err)
    (rest : List WriteOutcome) :
    (w.script = WriteOutcome.ok :: WriteOutcome.fail n e :: rest →
      (∀ (marshal : Request → Except Err (List Nat)) (r : Request), marshal r = Except.ok J →
        (Request.Write marshal r w).1 = some e ∧
        (Request.Write marshal r w).2.buf = w.buf ++ (messageHeader r.ID J).encode ++ J.take n ∧
        (messageHeader r.ID J).encode.length = 90 ∧
        (Request.Write marshal r w).2.calls = w.calls + 2 ∧
        (Request.Write marshal r w).2.script = rest ∧
        (r.WF → ∃ h, readBack w (Request.Write marshal r w).2 = Except.ok h ∧
          h.BodyLen = (J.length + 8) % 2 ^ 32 ∧
          (J.length + 8 < 2 ^ 32 → h.BodyLen = J.length + 8))) ∧
      (∀ (marshal : Response → Except Err (List Nat)) (r : Response), marshal r = Except.ok J →
        (Response.Write marshal r w).1 = some e ∧
        (Response.Write marshal r w).2.buf = w.buf ++ (messageHeader r.ID J).encode ++ J.take n ∧
        (messageHeader r.ID J).encode.length = 90 ∧
        (Response.Write marshal r w).2.calls = w.calls + 2 ∧
        (Response.Write marshal r w).2.script = rest ∧
        (r.WF → ∃ h, readBack w (Response.Write marshal r w).2 = Except.ok h ∧
          h.BodyLen = (J.length + 8) % 2 ^ 32 ∧
          (J.length + 8 < 2 ^ 32 → h.BodyLen = J.length + 8)))) ∧
    (w.script = WriteOutcome.fail n e :: rest →
      (∀ (marshal : Request → Except Err (List Nat)) (r : Request), marshal r = Except.ok J →
        (Request.Write marshal r w).1 = some e ∧
        (Request.Write marshal r w).2.buf = w.buf ++ (messageHeader r.ID J).encode.take n ∧
        (Request.Write marshal r w).2.calls = w.calls + 1 ∧
        (Request.Write marshal r w).2.script = rest) ∧
      (∀ (marshal : Response → Except Err (List Nat)) (r : Response), marshal r = Except.ok J →
        (Response.Write marshal r w).1 = some e ∧
        (Response.Write marshal r w).2.buf = w.buf ++ (messageHeader r.ID J).encode.take n ∧
        (Response.Write marshal r w).2.calls = w.calls + 1 ∧
        (Response.Write marshal r w).2.script = rest)) := by
  have hbl : ∀ id, J.length + 8 < 2 ^ 32 → (messageHeader id J).BodyLen = J.length + 8 :=
    fun id hJ => Nat.mod_eq_of_lt hJ
  constructor
  · intro hs
    have hn := nextOk_of_script_ok w _ hs
    constructor
    · intro marshal r hm
      refine ⟨?_, ?_, messageHeader_encode_length r.ID J, ?_, ?_, ?_⟩
      · rw [request_write_body_fail marshal r w J n e rest hm hs]
      · rw [request_write_body_fail marshal r w J n e rest hm hs]
      · rw [request_write_body_fail marshal r w J n e rest hm hs]
      · rw [request_write_body_fail marshal r w J n e rest hm hs]
      · intro hr
        exact ⟨messageHeader r.ID J, (request_write_readback marshal r w J hr hm hn).1, rfl,
          hbl r.ID⟩
    · intro marshal r hm
      refine ⟨?_, ?_, messageHeader_encode_length r.ID J, ?_, ?_, ?_⟩
      · rw [response_write_body_fail marshal r w J n e rest hm hs]
      · rw [response_write_body_fail marshal r w J n e rest hm hs]
      · rw [response_write_body_fail marshal r w J n e rest hm hs]
      · rw [response_write_body_fail marshal r w J n e rest hm hs]
      · intro hr
        exact ⟨messageHeader r.ID J, (response_write_readback marshal r w J hr hm hn).1, rfl,
          hbl r.ID⟩
  · intro hs
    constructor
    · intro marshal r hm
      rw [request_write_header_fail marshal r w J n e rest hm hs]
      exact ⟨rfl, rfl, rfl, rfl⟩
    · intro marshal r hm
      rw [response_write_header_fail marshal r w J n e rest hm hs]
      exact ⟨rfl, rfl, rfl, rfl⟩

/-- Witness of C16 (amended): the request of the end-to-end scenario on a
stream whose body write fails at once, and on one whose header write fails
after 10 bytes. -/
theorem partial_message_failure_witness :
    Request.Marshal addRequest = Except.ok addJSON ∧
    ((Request.Write Request.Marshal addRequest (bodyFailWriter 0 (Err.stream 1))).1
        = some (Err.stream 1) ∧
      (Request.Write Request.Marshal addRequest (bodyFailWriter 0 (Err.stream 1))).2.calls = 2) ∧
    ((Request.Write Request.Marshal addRequest (headerFailWriter 10 (Err.stream 1))).1
        = some (Err.stream 1) ∧
      (Request.Write Request.Marshal addRequest (headerFailWriter 10 (Err.stream 1))).2.calls
        = 1) :=
  ⟨rfl,
    ⟨(((partial_message_failure addJSON (bodyFailWriter 0 (Err.stream 1)) 0 (Err.stream 1) []).1
        rfl).1 Request.Marshal addRequest rfl).1,
      (((partial_message_failure addJSON (bodyFailWriter 0 (Err.stream 1)) 0 (Err.stream 1) []).1
        rfl).1 Request.Marshal addRequest rfl).2.2.2.1⟩,
    ⟨(((partial_message_failure addJSON (headerFailWriter 10 (Err.stream 1)) 10 (Err.stream 1)
        []).2 rfl).1 Request.Marshal addRequest rfl).1,
      (((partial_message_failure addJSON (headerFailWriter 10 (Err.stream 1)) 10 (Err.stream 1)
        []).2 rfl).1 Request.Marshal addRequest rfl).2.2.1⟩⟩

/-- When the serialization succeeds with the same bytes and the ids agree,
`Request.Write` and `Response.Write` do the same on the same writer. -/
theorem writers_agree_on_success (mq : Request → Except Err (List Nat))
    (mp : Response → Except Err (List Nat)) (q : Request) (p : Response) (w : Writer)
    (J : List Nat) (hid : q.ID = p.ID) (hq : mq q = Except.ok J) (hp : mp p = Except.ok J) :
    Request.Write mq q w = Response.Write mp p w := by
  rw [request_write_eq mq q w J hq, response_write_eq mp p w J hp, hid]

/-- C17 fails on the code: a request and a response with the same id whose
serialization fails with the same error, written to the same fresh stream:
`Request.Write` returns the error, `Response.Write` returns nil. -/
theorem writers_differ_on_marshal_fault :
    chanRequest.ID = chanResponse.ID ∧
    Request.Marshal chanRequest = Except.error (Err.marshal 0) ∧
    Response.Marshal chanResponse = Except.error (Err.marshal 0) ∧
    (Request.Write Request.Marshal chanRequest emptyWriter).1 = some (Err.marshal 0) ∧
    (Response.Write Response.Marshal chanResponse emptyWriter).1 = none ∧
    (Request.Write Request.Marshal chanRequest emptyWriter).1
      ≠ (Response.Write Response.Marshal chanResponse emptyWriter).1 :=
  ⟨rfl, rfl, rfl, rfl, rfl, by decide⟩

/-- C18: BodyLen is computed in 32-bit unsigned arithmetic. For a Request or
a Response whose JSON text is `N` bytes, the header put on the stream reads
back with `BodyLen = (N + 8) mod 2^32`, which is `N + 8` exactly when
`N + 8 < 2^32`; and for the request with a method name of 4294967265 letters,
whose JSON text is `N = 2^32 - 8` bytes, the written `BodyLen` is not
`N + 8`. -/
theorem bodylen_uint32 (J : List Nat) (w : Writer) (hw : w.nextOk) :
    (∀ (marshal : Request → Except Err (List Nat)) (r : Request),
      r.WF → marshal r = Except.ok J →
      ∃ h, readBack w (Request.Write marshal r w).2 = Except.ok h ∧
        h.BodyLen = (J.length + 8) % 2 ^ 32 ∧
        (h.BodyLen = J.length + 8 ↔ J.length + 8 < 2 ^ 32)) ∧
    (∀ (marshal : Response → Except Err (List Nat)) (r : Response),
      r.WF → marshal r = Except.ok J →
      ∃ h, readBack w (Response.Write marshal r w).2 = Except.ok h ∧
        h.BodyLen = (J.length + 8) % 2 ^ 32 ∧
        (h.BodyLen = J.length + 8 ↔ J.length + 8 < 2 ^ 32)) ∧
    (∃ N, 2 ^ 32 - 8 ≤ N ∧ (longJSON 4294967265).length = N ∧
      Request.Marshal (longRequest 4294967265) = Except.ok (longJSON 4294967265) ∧
      ∃ h, readBack emptyWriter
          (Request.Write Request.Marshal (longRequest 4294967265) emptyWriter).2 = Except.ok h ∧
        h.BodyLen ≠ N + 8) := by
  have hiff : ∀ id, (messageHeader id J).BodyLen = J.length + 8 ↔ J.length + 8 < 2 ^ 32 := by
    intro id
    rw [messageHeader_BodyLen]
    exact Nat.mod_eq_iff_lt (by decide)
  refine ⟨?_, ?_, ?_⟩
  · intro marshal r hr hm
    exact ⟨messageHeader r.ID J, (request_write_readback marshal r w J hr hm hw).1, rfl,
      hiff r.ID⟩
  · intro marshal r hr hm
    exact ⟨messageHeader r.ID J, (response_write_readback marshal r w J hr hm hw).1, rfl,
      hiff r.ID⟩
  · obtain ⟨hm, hl0⟩ := longRequest_marshal 4294967265
    have hl : (longJSON 4294967265).length = 4294967288 := by rw [hl0]
    have hr : (longRequest 4294967265).WF := by
      show (1 : Nat) < 2 ^ 32
      decide
    have hb : (messageHeader 1 (longJSON 4294967265)).BodyLen = 0 := by
      rw [messageHeader_BodyLen, hl]
      decide
    refine ⟨4294967288, by decide, hl, hm, messageHeader 1 (longJSON 4294967265), ?_, ?_⟩
    · exact (request_write_readback Request.Marshal (longRequest 4294967265) emptyWriter
        (longJSON 4294967265) hr hm trivial).1
    · rw [hb]
      decide

/-- Witness of C18: the request of the end-to-end scenario on a fresh writer. -/
theorem bodylen_uint32_witness :
    emptyWriter.nextOk ∧ addRequest.WF ∧ Request.Marshal addRequest = Except.ok addJSON ∧
    ∃ h, readBack emptyWriter (Request.Write Request.Marshal addRequest emptyWriter).2
        = Except.ok h ∧
      h.BodyLen = (addJSON.length + 8) % 2 ^ 32 ∧
      (h.BodyLen = addJSON.length + 8 ↔ addJSON.length + 8 < 2 ^ 32) :=
  ⟨by decide, by decide, rfl,
    (bodylen_uint32 addJSON emptyWriter (by decide)).1 Request.Marshal addRequest (by decide) rfl⟩

/-! ## Decoding is lossless -/

theorem getD_lt_of_bytes (l : List Nat) (h : ∀ x ∈ l, x < 256) (i : Nat) : l.getD i 0 < 256 := by
  rw [List.getD_eq_getElem?_getD]
  by_cases hi : i < l.length
  · rw [List.getElem?_eq_getElem hi]
    exact h _ (List.getElem_mem hi)
  · rw [List.getElem?_eq_none (by omega)]
    decide

theorem getUint32_lt (l : List Nat) (h : ∀ x ∈ l, x < 256) : getUint32 l < 2 ^ 32 := by
  have h0 := getD_lt_of_bytes l h 0
  have h1 := getD_lt_of_bytes l h 1
  have h2 := getD_lt_of_bytes l h 2
  have h3 := getD_lt_of_bytes l h 3
  simp only [getUint32]
  omega

theorem getUint16_lt (l : List Nat) (h : ∀ x ∈ l, x < 256) : getUint16 l < 2 ^ 16 := by
  have h0 := getD_lt_of_bytes l h 0
  have h1 := getD_lt_of_bytes l h 1
  simp only [getUint16]
  omega

theorem putUint32_getUint32 (l : List Nat) (hl : l.length = 4) (h : ∀ x ∈ l, x < 256) :
    putUint32 (getUint32 l) = l := by
  match l, hl with
  | [a, b, c, d], _ =>
      have ha := h a (by simp)
      have hb := h b (by simp)
      have hc := h c (by simp)
      have hd := h d (by simp)
      simp only [getUint32, putUint32, List.getD_cons_zero, List.getD_cons_succ]
      norm_num
      refine ⟨?_, ?_, ?_, ?_⟩ <;> omega

theorem putUint16_getUint16 (l : List Nat) (hl : l.length = 2) (h : ∀ x ∈ l, x < 256) :
    putUint16 (getUint16 l) = l := by
  match l, hl with
  | [a, b], _ =>
      have ha := h a (by simp)
      have hb := h b (by simp)
      simp only [getUint16, putUint16, List.getD_cons_zero, List.getD_cons_succ]
      norm_num
      refine ⟨?_, ?_⟩ <;> omega

/-- A slice of a byte string is a byte string. -/
theorem isBytes_slice (b : List Nat) (hb : ∀ x ∈ b, x < 256) (k n : Nat)
    (hk : k + n ≤ b.length) : isBytes n ((b.drop k).take n) := by
  constructor
  · rw [List.length_take, List.length_drop]
    omega
  · intro x hx
    exact hb x (List.mem_of_mem_drop (List.mem_of_mem_take hx))

theorem slice_append (b : List Nat) (k n : Nat) :
    (b.drop k).take n ++ b.drop (k + n) = b.drop k := by
  rw [← List.drop_drop]
  exact List.take_append_drop n (b.drop k)


/-- The header decoded from 90 bytes has every field in the range of its Go
type. -/
theorem Header.decode_WF (b : List Nat) (hb : isBytes 90 b) : (Header.decode b).WF := by
  obtain ⟨hl, hlt⟩ := hb
  have hs : ∀ k n, k + n ≤ 90 → ∀ x ∈ (b.drop k).take n, x < 256 := fun k n hk =>
    (isBytes_slice b hlt k n (by omega)).2
  refine ⟨getUint32_lt _ (hs 0 4 (by omega)), getUint16_lt _ (hs 4 2 (by omega)),
    getUint32_lt _ (hs 6 4 (by omega)), getUint32_lt _ (hs 10 4 (by omega)),
    isBytes_slice b hlt 14 32 (by omega), isBytes_slice b hlt 46 32 (by omega),
    getUint32_lt _ (hs 78 4 (by omega)), isBytes_slice b hlt 82 8 (by omega)⟩

/-- Encoding the header decoded from 90 bytes gives the 90 bytes back. -/
theorem Header.encode_decode (b : List Nat) (hb : isBytes 90 b) :
    (Header.decode b).encode = b := by
  obtain ⟨hl, hlt⟩ := hb
  have hs : ∀ k n, k + n ≤ 90 → isBytes n ((b.drop k).take n) := fun k n hk =>
    isBytes_slice b hlt k n (by omega)
  have p0 : putUint32 (getUint32 (b.take 4)) = b.take 4 :=
    putUint32_getUint32 _ (hs 0 4 (by omega)).1 (hs 0 4 (by omega)).2
  have p4 := putUint16_getUint16 _ (hs 4 2 (by omega)).1 (hs 4 2 (by omega)).2
  have p6 := putUint32_getUint32 _ (hs 6 4 (by omega)).1 (hs 6 4 (by omega)).2
  have p10 := putUint32_getUint32 _ (hs 10 4 (by omega)).1 (hs 10 4 (by omega)).2
  have p78 := putUint32_getUint32 _ (hs 78 4 (by omega)).1 (hs 78 4 (by omega)).2
  have e82 : (b.drop 82).take 8 = b.drop 82 :=
    List.take_of_length_le (by rw [List.length_drop]; omega)
  have e78 : (b.drop 78).take 4 ++ b.drop 82 = b.drop 78 := slice_append b 78 4
  have e46 : (b.drop 46).take 32 ++ b.drop 78 = b.drop 46 := slice_append b 46 32
  have e14 : (b.drop 14).take 32 ++ b.drop 46 = b.drop 14 := slice_append b 14 32
  have e10 : (b.drop 10).take 4 ++ b.drop 14 = b.drop 10 := slice_append b 10 4
  have e6 : (b.drop 6).take 4 ++ b.drop 10 = b.drop 6 := slice_append b 6 4
  have e4 : (b.drop 4).take 2 ++ b.drop 6 = b.drop 4 := slice_append b 4 2
  simp only [Header.encode, Header.decode, List.append_assoc]
  rw [p0, p4, p6, p10, p78, e82, e78, e46, e14, e10, e6, e4]
  exact List.take_append_drop 4 b

/-- C19: Reverse round trip. For every sequence `b` of exactly 90 bytes,
`ReadHeader(b)` succeeds, the header it returns has every field in the range of
its Go type, and encoding that header gives `b` again; with the round trip from
a header to its 90 bytes and back, encoding and decoding are inverse bijections
between the headers and the 90-byte strings. -/
theorem header_decode_lossless (b : List Nat) (hb : isBytes 90 b) (f : Option Err) :
    (∃ h, ReadHeader { data := b, fault := f } = (Except.ok h, { data := [], fault := f }) ∧
      h.WF ∧ h.encode = b) ∧
    (∀ c : List Nat, isBytes 90 c → Header.decode c = Header.decode b → c = b) ∧
    (∀ h : Header, h.WF → isBytes 90 h.encode ∧ Header.decode h.encode = h) := by
  refine ⟨⟨Header.decode b, ?_, Header.decode_WF b hb, Header.encode_decode b hb⟩, ?_, ?_⟩
  · have hr := ReadHeader_of_le b f (le_of_eq hb.1.symm)
    rw [List.take_of_length_le (le_of_eq hb.1), List.drop_of_length_le (le_of_eq hb.1)] at hr
    exact hr
  · intro c hc hcb
    rw [← Header.encode_decode c hc, hcb, Header.encode_decode b hb]
  · intro h hwf
    exact ⟨⟨Header.encode_length h hwf, Header.encode_byte h hwf⟩, Header.decode_encode h hwf⟩

/-- Witness of C19: 90 bytes that no writer of this package produces. -/
theorem header_decode_lossless_witness :
    isBytes 90 (List.replicate 90 0xA5) ∧
    ∃ h, ReadHeader { data := List.replicate 90 0xA5, fault := none }
        = (Except.ok h, { data := [], fault := none }) ∧
      h.WF ∧ h.encode = List.replicate 90 0xA5 :=
  ⟨by decide, (header_decode_lossless (List.replicate 90 0xA5) (by decide) none).1⟩

end Goyar
